import Mathlib

/-!
# HKDF-HMACSHA512 (RFC 5869): a shallow embedding of `hkdf_hmacsha512.c`

The two entry points `hkdf_hmacsha512_extract` and `hkdf_hmacsha512_expand`
are translated statement by statement.

Modelling conventions.

* Target: `size_t` and `uintptr_t` are 64-bit unsigned integers, so their
  arithmetic is arithmetic on `Nat` reduced modulo `SIZE_MOD = 2 ^ 64`.
  A pointer is its address; `NULL` is address `0`.
* Bytes are natural numbers; a buffer is a list of bytes.
* Every caller buffer is a separate object (the interface forbids aliasing
  between an input buffer and the output buffer).  A read-only argument is a
  `Buf`: the pointer value together with the bytes stored in the object it
  points to.  The object written through the output pointer is the field
  `out` of the `Frame`.
* The libsodium functions are external.  They are the fields of a `Sodium`
  record: each returns its `int` return code together with what it wrote.
  Each HMAC function also receives the number of library calls made so far
  in the current invocation, so that a return code may depend on when the
  call is made and not only on its arguments.
* `goto cleanup` is an early return from the body; the entry point then runs
  the statements under the `cleanup:` label on whatever the body returned.
* The `for` loop of `hkdf_hmacsha512_expand` is a recursion on a bound for
  the number of evaluations of its condition, so `hkdf_hmacsha512_expand`
  returns an `Option`; `expand_total` shows that the bound `N` the body
  passes is always enough, for every library.
* What is assumed of libsodium is always a hypothesis of the theorem that
  needs it: `LibSucceeds` (the calls report success), `LibComputes` (a call
  that reports success has computed the keyed hash `hmac`), `FailsFirstAt`
  (the first failing call is call number `c`).  Theorems without such a
  hypothesis hold whatever the library returns and stores.
-/

namespace Hkdf

/-- A sequence of bytes. -/
abbrev Bytes := List Nat

/-- SHA-512 output length: `#define HASH_LEN 64`. -/
def HASH_LEN : Nat := 64

def E_HKDF_SUCCESS : Int := 0
def E_HKDF_INIT : Int := 1
def E_HKDF_NULLPTR : Int := 2
def E_HKDF_LENGTH : Int := 3
def E_HKDF_OVERFLOW : Int := 4
def E_HKDF_FAILURE : Int := -1

/-- Number of values of `size_t` and of `uintptr_t`. -/
def SIZE_MOD : Nat := 2 ^ 64

/-- The null pointer, as an address. -/
def NULL : Nat := 0

/-- Unsigned addition of the target: `a + b` in `size_t` / `uintptr_t`. -/
def addSz (a b : Nat) : Nat := (a + b) % SIZE_MOD

/-- Unsigned subtraction of the target: `a - b` in `size_t`. -/
def subSz (a b : Nat) : Nat := (a % SIZE_MOD + SIZE_MOD - b % SIZE_MOD) % SIZE_MOD

/-- Unsigned multiplication of the target: `a * b` in `size_t`. -/
def mulSz (a b : Nat) : Nat := (a * b) % SIZE_MOD

/-- The guard `(uintptr_t) p + len < (uintptr_t) p`: the address wraps around. -/
def wraps (p len : Nat) : Bool := decide (addSz p len < p)

/-- A read-only buffer argument: the pointer and the bytes of the object it
points to (irrelevant when the pointer is `NULL`). -/
structure Buf where
  ptr : Nat
  data : Bytes
deriving DecidableEq

/-- The `n` bytes read from offset `off` of an object. -/
def readAt (buf : Bytes) (off n : Nat) : Bytes := (buf.drop off).take n

/-- The object after `data` has been stored at offset `off` (the store lies
inside the object whenever `off + data.length ≤ buf.length`). -/
def writeAt (buf : Bytes) (off : Nat) (data : Bytes) : Bytes :=
  buf.take off ++ data ++ buf.drop (off + data.length)

/-- A call of a libsodium function, as recorded in the trace of an invocation. -/
inductive LibCall where
  | sodium_init
  | hmacsha512_init (key : Bytes)
  | hmacsha512_update (data : Bytes)
  | hmacsha512_final
deriving DecidableEq

/-- The external collaborator, libsodium.  `sodium_init` is the return code of
the bootstrap.  The three streaming functions take the number of library
calls made before them in this invocation and the bytes of the
`crypto_auth_hmacsha512_state` object; they return the return code and the
new bytes of the state object; `crypto_auth_hmacsha512_final` also returns the
bytes it stored through its output pointer. -/
structure Sodium where
  sodium_init : Int
  crypto_auth_hmacsha512_init : Nat → Bytes → Bytes → Int × Bytes
  crypto_auth_hmacsha512_update : Nat → Bytes → Bytes → Int × Bytes
  crypto_auth_hmacsha512_final : Nat → Bytes → Int × Bytes × Bytes

/-- The effect of `sodium_memzero(buf, sizeof buf)`: every byte of the object
becomes zero. -/
def sodium_memzero (buf : Bytes) : Bytes := List.replicate buf.length 0

/-- The memory an invocation touches: the local `state`, the local `tmp_block`
(of `hkdf_hmacsha512_expand` only; `hkdf_hmacsha512_extract` has no such local
and carries the field along untouched), the object behind the output pointer,
and the trace of library calls made so far. -/
structure Frame where
  state : Bytes
  tmp_block : Bytes
  out : Bytes
  trace : List LibCall
deriving DecidableEq

/-- The call `sodium_init()`. -/
def call_sodium_init (S : Sodium) (f : Frame) : Int × Frame :=
  (S.sodium_init, { f with trace := f.trace ++ [LibCall.sodium_init] })

/-- The call `crypto_auth_hmacsha512_init(&state, key, keylen)`, where `key`
is the `keylen` bytes read. -/
def call_init (S : Sodium) (key : Bytes) (f : Frame) : Int × Frame :=
  let r := S.crypto_auth_hmacsha512_init f.trace.length f.state key
  (r.1, { f with state := r.2, trace := f.trace ++ [LibCall.hmacsha512_init key] })

/-- The call `crypto_auth_hmacsha512_update(&state, in, inlen)`, where `data`
is the `inlen` bytes read. -/
def call_update (S : Sodium) (data : Bytes) (f : Frame) : Int × Frame :=
  let r := S.crypto_auth_hmacsha512_update f.trace.length f.state data
  (r.1, { f with state := r.2, trace := f.trace ++ [LibCall.hmacsha512_update data] })

/-- The call `crypto_auth_hmacsha512_final(&state, out)`; the third component
is what the library stored through `out`. -/
def call_final (S : Sodium) (f : Frame) : Int × Frame × Bytes :=
  let r := S.crypto_auth_hmacsha512_final f.trace.length f.state
  (r.1, { f with state := r.2.1, trace := f.trace ++ [LibCall.hmacsha512_final] }, r.2.2)

/-- The body of `hkdf_hmacsha512_extract` up to the label `cleanup`: the
value of `ret` and the memory when control reaches the label. -/
def extract_body (S : Sodium) (salt : Buf) (salt_len : Nat) (ikm : Buf) (ikm_len : Nat)
    (prk : Nat) (prk_len : Nat) (f : Frame) : Int × Frame :=
  if salt.ptr = NULL ∧ salt_len ≠ 0 then (E_HKDF_LENGTH, f)
  else if wraps salt.ptr salt_len then (E_HKDF_OVERFLOW, f)
  else if ikm.ptr = NULL ∧ ikm_len ≠ 0 then (E_HKDF_LENGTH, f)
  else if wraps ikm.ptr ikm_len then (E_HKDF_OVERFLOW, f)
  else if prk = NULL then (E_HKDF_NULLPTR, f)
  else if HASH_LEN ≠ prk_len then (E_HKDF_LENGTH, f)
  else if wraps prk prk_len then (E_HKDF_OVERFLOW, f)
  else
    let r0 := call_sodium_init S f
    if r0.1 = -1 then (E_HKDF_INIT, r0.2)
    else
      let r1 := call_init S (salt.data.take salt_len) r0.2
      if r1.1 ≠ 0 then (E_HKDF_INIT, r1.2)
      else
        let r2 := call_update S (ikm.data.take ikm_len) r1.2
        if r2.1 ≠ 0 then (E_HKDF_FAILURE, r2.2)
        else
          let r3 := call_final S r2.2
          let f3 : Frame := { r3.2.1 with out := writeAt r3.2.1.out 0 r3.2.2 }
          if r3.1 ≠ 0 then (E_HKDF_FAILURE, f3)
          else (E_HKDF_SUCCESS, f3)

/-- The function `hkdf_hmacsha512_extract`: the body, then
`sodium_memzero(&state, sizeof(state)); return ret;`. -/
def hkdf_hmacsha512_extract (S : Sodium) (salt : Buf) (salt_len : Nat) (ikm : Buf)
    (ikm_len : Nat) (prk : Nat) (prk_len : Nat) (f : Frame) : Int × Frame :=
  let r := extract_body S salt salt_len ikm ikm_len prk prk_len f
  (r.1, { r.2 with state := sodium_memzero r.2.state })

/-- The four calls that open the computation of a block, in the loop and for
the last block alike: init keyed with the PRK, update with the previous block
(`NULL == T ? 0 : HASH_LEN` bytes at `T`, a pointer into the output object),
update with the info, update with the one byte `seq = (unsigned char) (i + 1)`.
The first component is `0` when all four returned `0`, else the value given
to `ret` before `goto cleanup`. -/
def expand_block_head (S : Sodium) (prk : Buf) (prk_len : Nat) (info : Buf) (info_len : Nat)
    (output : Nat) (T : Nat) (i : Nat) (f : Frame) : Int × Frame :=
  let r1 := call_init S (prk.data.take prk_len) f
  if r1.1 ≠ 0 then (E_HKDF_INIT, r1.2)
  else
    let r2 := call_update S
      (readAt r1.2.out (T - output) (if T = NULL then 0 else HASH_LEN)) r1.2
    if r2.1 ≠ 0 then (E_HKDF_FAILURE, r2.2)
    else
      let r3 := call_update S (info.data.take info_len) r2.2
      if r3.1 ≠ 0 then (E_HKDF_FAILURE, r3.2)
      else
        let seq := (i + 1) % 256
        let r4 := call_update S [seq] r3.2
        if r4.1 ≠ 0 then (E_HKDF_FAILURE, r4.2)
        else (E_HKDF_SUCCESS, r4.2)

/-- How the loop of `hkdf_hmacsha512_expand` is left. -/
inductive LoopExit where
  | cleanup (ret : Int) (f : Frame)
  | done (i : Nat) (T : Nat) (f : Frame)
deriving DecidableEq

/-- The loop `for ( i = 0; i < N - 1; ++i )` of `hkdf_hmacsha512_expand`,
entered with the current `i`, `T` and memory.  The first argument bounds the
number of evaluations of the loop condition; `none` means the bound was
reached. -/
def expand_loop (S : Sodium) (prk : Buf) (prk_len : Nat) (info : Buf) (info_len : Nat)
    (output : Nat) (N : Nat) : Nat → Nat → Nat → Frame → Option LoopExit
  | 0, _, _, _ => none
  | fuel + 1, i, T, f =>
    if i < subSz N 1 then
      let h := expand_block_head S prk prk_len info info_len output T i f
      if h.1 ≠ 0 then some (LoopExit.cleanup h.1 h.2)
      else
        let r5 := call_final S h.2
        let f5 : Frame := { r5.2.1 with out := writeAt r5.2.1.out (i * HASH_LEN) r5.2.2 }
        if r5.1 ≠ 0 then some (LoopExit.cleanup E_HKDF_FAILURE f5)
        else expand_loop S prk prk_len info info_len output N fuel (i + 1)
          (output + i * HASH_LEN) f5
    else some (LoopExit.done i T f)

/-- The last block of `hkdf_hmacsha512_expand`: computed into `tmp_block`,
then copied to `output + (N - 1) * HASH_LEN`, whole when
`output_len % HASH_LEN` is `0` and cut to `output_len % HASH_LEN` bytes
otherwise. -/
def expand_last (S : Sodium) (prk : Buf) (prk_len : Nat) (info : Buf) (info_len : Nat)
    (output : Nat) (output_len : Nat) (N : Nat) (i : Nat) (T : Nat) (f : Frame) : Int × Frame :=
  let h := expand_block_head S prk prk_len info info_len output T i f
  if h.1 ≠ 0 then h
  else
    let r5 := call_final S h.2
    let f5 : Frame := { r5.2.1 with tmp_block := writeAt r5.2.1.tmp_block 0 r5.2.2 }
    if r5.1 ≠ 0 then (E_HKDF_FAILURE, f5)
    else if 0 = output_len % HASH_LEN then
      let dst := mulSz (subSz N 1) HASH_LEN
      (E_HKDF_SUCCESS, { f5 with out := writeAt f5.out dst (f5.tmp_block.take HASH_LEN) })
    else
      let dst := mulSz (subSz N 1) HASH_LEN
      (E_HKDF_SUCCESS,
        { f5 with out := writeAt f5.out dst (f5.tmp_block.take (output_len % HASH_LEN)) })

/-- The body of `hkdf_hmacsha512_expand` up to the label `cleanup`; `none`
only if the loop reached its bound. -/
def expand_body (S : Sodium) (prk : Buf) (prk_len : Nat) (info : Buf) (info_len : Nat)
    (output : Nat) (output_len : Nat) (f : Frame) : Option (Int × Frame) :=
  if prk.ptr = NULL then some (E_HKDF_NULLPTR, f)
  else if prk_len < HASH_LEN then some (E_HKDF_LENGTH, f)
  else if wraps prk.ptr prk_len then some (E_HKDF_OVERFLOW, f)
  else if info.ptr = NULL ∧ info_len ≠ 0 then some (E_HKDF_LENGTH, f)
  else if wraps info.ptr info_len then some (E_HKDF_OVERFLOW, f)
  else if (output = NULL ∧ output_len ≠ 0) ∨ output_len > 255 * HASH_LEN then
    some (E_HKDF_LENGTH, f)
  else if wraps output output_len then some (E_HKDF_OVERFLOW, f)
  else
    let r0 := call_sodium_init S f
    if r0.1 = -1 then some (E_HKDF_INIT, r0.2)
    else
      let N := subSz (addSz output_len HASH_LEN) 1 / HASH_LEN
      if 0 = N then some (E_HKDF_SUCCESS, r0.2)
      else
        match expand_loop S prk prk_len info info_len output N N 0 NULL r0.2 with
        | none => none
        | some (LoopExit.cleanup ret f1) => some (ret, f1)
        | some (LoopExit.done i T f1) =>
          some (expand_last S prk prk_len info info_len output output_len N i T f1)

/-- The function `hkdf_hmacsha512_expand`: the body, then
`sodium_memzero(&state, sizeof(state)); sodium_memzero(tmp_block, ...); return ret;`. -/
def hkdf_hmacsha512_expand (S : Sodium) (prk : Buf) (prk_len : Nat) (info : Buf)
    (info_len : Nat) (output : Nat) (output_len : Nat) (f : Frame) : Option (Int × Frame) :=
  match expand_body S prk prk_len info info_len output output_len f with
  | none => none
  | some r =>
    some (r.1, { r.2 with state := sodium_memzero r.2.state,
                          tmp_block := sodium_memzero r.2.tmp_block })

/-! ## Parts of the body of Expand, named for the proofs -/

/-- One pass through the body of the loop, for block `i + 1`: the value given
to `ret` (`0` when all five calls returned `0`) and the memory after it. -/
def expand_loop_pass (S : Sodium) (prk : Buf) (prk_len : Nat) (info : Buf) (info_len : Nat)
    (output : Nat) (T : Nat) (i : Nat) (f : Frame) : Int × Frame :=
  let h := expand_block_head S prk prk_len info info_len output T i f
  if h.1 ≠ 0 then h
  else
    let r5 := call_final S h.2
    let f5 : Frame := { r5.2.1 with out := writeAt r5.2.1.out (i * HASH_LEN) r5.2.2 }
    if r5.1 ≠ 0 then (E_HKDF_FAILURE, f5) else (E_HKDF_SUCCESS, f5)

/-- The value of `T` when block `i + 1` is computed: `NULL` for the first
block, else the address of block `i` inside the output object. -/
def T_at (output i : Nat) : Nat := if i = 0 then NULL else output + (i - 1) * HASH_LEN

/-- The body of `hkdf_hmacsha512_expand` from the call of `sodium_init` on,
that is, once the seven validation checks have passed. -/
def expand_compute (S : Sodium) (prk : Buf) (prk_len : Nat) (info : Buf) (info_len : Nat)
    (output : Nat) (output_len : Nat) (f : Frame) : Option (Int × Frame) :=
  let r0 := call_sodium_init S f
  if r0.1 = -1 then some (E_HKDF_INIT, r0.2)
  else
    let N := subSz (addSz output_len HASH_LEN) 1 / HASH_LEN
    if 0 = N then some (E_HKDF_SUCCESS, r0.2)
    else
      match expand_loop S prk prk_len info info_len output N N 0 NULL r0.2 with
      | none => none
      | some (LoopExit.cleanup ret f1) => some (ret, f1)
      | some (LoopExit.done i T f1) =>
        some (expand_last S prk prk_len info info_len output output_len N i T f1)

/-! ## The contract of the external collaborator -/

/-- The library calls succeed: the bootstrap does not return `-1` and every
HMAC call returns `0`. -/
structure LibSucceeds (S : Sodium) : Prop where
  boot : S.sodium_init ≠ -1
  init_rc : ∀ n st key, (S.crypto_auth_hmacsha512_init n st key).1 = 0
  update_rc : ∀ n st d, (S.crypto_auth_hmacsha512_update n st d).1 = 0
  final_rc : ∀ n st, (S.crypto_auth_hmacsha512_final n st).1 = 0

/-- The streaming interface computes the keyed hash `hmac` whenever it
reports success.  `R st key m` reads: the state bytes `st` stand for a
computation keyed with `key` that has been fed the message `m` so far.  A
successful init establishes it whatever the state held before, a successful
update extends the message, a successful final stores the `HASH_LEN`-byte
digest `hmac key m`.  Nothing is assumed about what a failing call stores. -/
structure LibComputes (S : Sodium) (R : Bytes → Bytes → Bytes → Prop)
    (hmac : Bytes → Bytes → Bytes) : Prop where
  init_rep : ∀ n st key, (S.crypto_auth_hmacsha512_init n st key).1 = 0 →
    R (S.crypto_auth_hmacsha512_init n st key).2 key []
  update_rep : ∀ n st key m d, R st key m →
    (S.crypto_auth_hmacsha512_update n st d).1 = 0 →
    R (S.crypto_auth_hmacsha512_update n st d).2 key (m ++ d)
  final_val : ∀ n st key m, R st key m →
    (S.crypto_auth_hmacsha512_final n st).1 = 0 →
    (S.crypto_auth_hmacsha512_final n st).2.2 = hmac key m
  digest_len : ∀ key m, (hmac key m).length = HASH_LEN

/-- The first failing library call of an invocation is call number `c`
(counting from 0, `sodium_init` included): the HMAC calls numbered below `c`
return `0` and the HMAC call numbered `c`, whichever function it is, returns a
nonzero code. -/
structure FailsFirstAt (S : Sodium) (c : Nat) : Prop where
  init_ok : ∀ n st key, n < c → (S.crypto_auth_hmacsha512_init n st key).1 = 0
  update_ok : ∀ n st d, n < c → (S.crypto_auth_hmacsha512_update n st d).1 = 0
  final_ok : ∀ n st, n < c → (S.crypto_auth_hmacsha512_final n st).1 = 0
  init_fails : ∀ st key, (S.crypto_auth_hmacsha512_init c st key).1 ≠ 0
  update_fails : ∀ st d, (S.crypto_auth_hmacsha512_update c st d).1 ≠ 0
  final_fails : ∀ st, (S.crypto_auth_hmacsha512_final c st).1 ≠ 0

/-! ## HKDF-Expand as RFC 5869 states it -/

/-- The block `T(i)`: `T(0)` is empty and
`T(i) = HMAC(PRK, T(i-1) || info || i)`, `i` a single byte. -/
def rfc5869_T (hmac : Bytes → Bytes → Bytes) (PRK info : Bytes) : Nat → Bytes
  | 0 => []
  | i + 1 => hmac PRK (rfc5869_T hmac PRK info i ++ info ++ [i + 1])

/-- The concatenation `T(1) || T(2) || ... || T(n)`. -/
def rfc5869_blocks (hmac : Bytes → Bytes → Bytes) (PRK info : Bytes) : Nat → Bytes
  | 0 => []
  | n + 1 => rfc5869_blocks hmac PRK info n ++ rfc5869_T hmac PRK info (n + 1)

/-- The output keying material: the first `L` bytes of `T(1) || ... || T(N)`,
`N = ceil(L / HASH_LEN)`. -/
def rfc5869_okm (hmac : Bytes → Bytes → Bytes) (PRK info : Bytes) (L : Nat) : Bytes :=
  (rfc5869_blocks hmac PRK info ((L + HASH_LEN - 1) / HASH_LEN)).take L

/-- The five library calls that compute the block `T(k)`, the counter being
the single byte `k`. -/
def block_calls (hmac : Bytes → Bytes → Bytes) (PRK info : Bytes) (k : Nat) : List LibCall :=
  [ LibCall.hmacsha512_init PRK,
    LibCall.hmacsha512_update (rfc5869_T hmac PRK info (k - 1)),
    LibCall.hmacsha512_update info,
    LibCall.hmacsha512_update [k],
    LibCall.hmacsha512_final ]

/-- The library calls that compute `T(1), ..., T(n)` one after the other. -/
def expand_calls (hmac : Bytes → Bytes → Bytes) (PRK info : Bytes) : Nat → List LibCall
  | 0 => []
  | n + 1 => expand_calls hmac PRK info n ++ block_calls hmac PRK info (n + 1)

/-- The memory at the head of pass `i` of a run that started on the output
object `orig` with trace `t0` and temporary block `tmp`: the blocks
`T(1), ..., T(i)` are in place, the rest of the output object and the
temporary block are untouched, and the calls made so far are the bootstrap and
those of the `i` blocks. -/
def LoopInv (hmac : Bytes → Bytes → Bytes) (key info orig : Bytes) (t0 : List LibCall)
    (tmp : Bytes) (i : Nat) (f : Frame) : Prop :=
  f.out = rfc5869_blocks hmac key info i ++ orig.drop (i * HASH_LEN) ∧
  f.trace = t0 ++ [LibCall.sodium_init] ++ expand_calls hmac key info i ∧
  f.tmp_block = tmp

/-! ## HMAC as it is defined -/

/-- Block length of SHA-512, in bytes. -/
def SHA512_BLOCK : Nat := 128

/-- The key brought to the block length (RFC 2104): a key longer than a block
is hashed first; the result is padded with zero bytes up to the block. -/
def hmac_block_key (H : Bytes → Bytes) (key : Bytes) : Bytes :=
  let k0 := if SHA512_BLOCK < key.length then H key else key
  k0 ++ List.replicate (SHA512_BLOCK - k0.length) 0

/-- HMAC over the hash `H` by its definition (RFC 2104):
`H ((K xor opad) || H ((K xor ipad) || m))`, `K` the key brought to the block
length, `ipad` the byte `0x36` and `opad` the byte `0x5c` repeated. -/
def hmacsha512_def (H : Bytes → Bytes) (key m : Bytes) : Bytes :=
  let k := hmac_block_key H key
  H (k.map (fun b => b ^^^ 0x5c) ++ H (k.map (fun b => b ^^^ 0x36) ++ m))

/-! ## Validation as the specification lists it -/

/-- A fixed-order first-failure decision: the status attached to the first
condition that holds, `none` when no condition holds. -/
def first_failure (checks : List (Bool × Int)) : Option Int :=
  (checks.find? (fun c => c.1)).map (fun c => c.2)

/-- The seven validation conditions of Extract with their status, in the order
of the specification. -/
def extract_checks (salt salt_len ikm ikm_len prk prk_len : Nat) : List (Bool × Int) :=
  [ (decide (salt = 0 ∧ salt_len ≠ 0), 3),
    (decide ((salt + salt_len) % 2 ^ 64 < salt), 4),
    (decide (ikm = 0 ∧ ikm_len ≠ 0), 3),
    (decide ((ikm + ikm_len) % 2 ^ 64 < ikm), 4),
    (decide (prk = 0), 2),
    (decide (prk_len ≠ 64), 3),
    (decide ((prk + prk_len) % 2 ^ 64 < prk), 4) ]

/-- The seven validation conditions of Expand with their status, in the order
of the specification. -/
def expand_checks (prk prk_len info info_len output output_len : Nat) : List (Bool × Int) :=
  [ (decide (prk = 0), 2),
    (decide (prk_len < 64), 3),
    (decide ((prk + prk_len) % 2 ^ 64 < prk), 4),
    (decide (info = 0 ∧ info_len ≠ 0), 3),
    (decide ((info + info_len) % 2 ^ 64 < info), 4),
    (decide ((output = 0 ∧ output_len ≠ 0) ∨ output_len > 255 * 64), 3),
    (decide ((output + output_len) % 2 ^ 64 < output), 4) ]

/-! ## Libraries, hashes and frames for concrete evaluation -/

/-- A library that never fails and computes `hmac`: the state object holds the
key length, the key and the message fed so far. -/
def refSodium (hmac : Bytes → Bytes → Bytes) : Sodium where
  sodium_init := 0
  crypto_auth_hmacsha512_init := fun _ _ key => (0, key.length :: key)
  crypto_auth_hmacsha512_update := fun _ st d => (0, st ++ d)
  crypto_auth_hmacsha512_final := fun _ st =>
    (0, st, hmac (st.tail.take (st.headD 0)) (st.tail.drop (st.headD 0)))

/-- The representation relation of `refSodium`. -/
def refRep (st key m : Bytes) : Prop := st = key.length :: (key ++ m)

/-- A library whose bootstrap fails. -/
def failingBoot : Sodium where
  sodium_init := -1
  crypto_auth_hmacsha512_init := fun _ st _ => (0, st)
  crypto_auth_hmacsha512_update := fun _ st _ => (0, st)
  crypto_auth_hmacsha512_final := fun _ st => (0, st, [])

/-- A library that computes `hmac` and whose call number `c` (counting from 0
within the invocation) fails with return code `1`, every other call
returning `0`. -/
def failingAt (hmac : Bytes → Bytes → Bytes) (c : Nat) : Sodium where
  sodium_init := 0
  crypto_auth_hmacsha512_init := fun n _ key => (if n = c then 1 else 0, key.length :: key)
  crypto_auth_hmacsha512_update := fun n st d => (if n = c then 1 else 0, st ++ d)
  crypto_auth_hmacsha512_final := fun n st =>
    (if n = c then 1 else 0, st, hmac (st.tail.take (st.headD 0)) (st.tail.drop (st.headD 0)))

/-- A toy keyed hash with `HASH_LEN`-byte digests, for concrete evaluation. -/
def toyHmac (key m : Bytes) : Bytes :=
  List.replicate HASH_LEN ((key.sum + 3 * m.sum + m.length) % 256)

/-- A toy hash with `HASH_LEN`-byte digests, for concrete evaluation. -/
def toyHash (m : Bytes) : Bytes := List.replicate HASH_LEN ((m.sum + 7 * m.length) % 256)

/-- A frame for concrete evaluation: a 3-byte state, a 64-byte `tmp_block` and
a 100-byte output object, all holding nonzero bytes, and an empty trace. -/
def demoFrame : Frame :=
  { state := [7, 7, 7], tmp_block := List.replicate 64 9, out := List.replicate 100 5,
    trace := [] }

/-- A frame whose output object has room for the longest output, `255 * 64`
bytes. -/
def wideFrame : Frame :=
  { state := [7, 7, 7], tmp_block := List.replicate 64 9,
    out := List.replicate (255 * 64) 5, trace := [] }

/-! ## Auxiliary facts -/

theorem refSodium_succeeds (hmac : Bytes → Bytes → Bytes) : LibSucceeds (refSodium hmac) :=
  ⟨by simp [refSodium], fun _ _ _ => rfl, fun _ _ _ => rfl, fun _ _ => rfl⟩

theorem refSodium_computes (hmac : Bytes → Bytes → Bytes)
    (hlen : ∀ key m, (hmac key m).length = HASH_LEN) :
    LibComputes (refSodium hmac) refRep hmac := by
  refine ⟨fun _ _ key _ => ?_, fun _ st key m d h _ => ?_, fun _ st key m h _ => ?_, hlen⟩
  · simp [refSodium, refRep]
  · simp only [refRep] at h
    simp [refSodium, refRep, h]
  · simp only [refRep] at h
    simp [refSodium, h]

theorem toyHmac_length (key m : Bytes) : (toyHmac key m).length = HASH_LEN := by
  simp [toyHmac]

theorem writeAt_zero (buf data : Bytes) :
    writeAt buf 0 data = data ++ buf.drop data.length := by
  simp [writeAt]

/-- Storing at the end of a known prefix. -/
theorem writeAt_append (pre rest data : Bytes) (n : Nat) (h : pre.length = n) :
    writeAt (pre ++ rest) n data = pre ++ data ++ rest.drop data.length := by
  subst h
  simp [writeAt]

theorem extract_ok (S : Sodium) (R : Bytes → Bytes → Bytes → Prop)
    (hmac : Bytes → Bytes → Bytes) (hs : LibSucceeds S) (hc : LibComputes S R hmac)
    (salt ikm : Buf) (salt_len ikm_len prk : Nat) (f : Frame)
    (hsalt : salt.ptr = NULL → salt_len = 0) (hikm : ikm.ptr = NULL → ikm_len = 0)
    (hprk : prk ≠ NULL) (hw1 : wraps salt.ptr salt_len = false)
    (hw2 : wraps ikm.ptr ikm_len = false) (hw3 : wraps prk HASH_LEN = false) :
    (hkdf_hmacsha512_extract S salt salt_len ikm ikm_len prk HASH_LEN f).1 = E_HKDF_SUCCESS ∧
    (hkdf_hmacsha512_extract S salt salt_len ikm ikm_len prk HASH_LEN f).2.out =
      hmac (salt.data.take salt_len) (ikm.data.take ikm_len) ++ f.out.drop HASH_LEN := by
  have h1 : ¬ (salt.ptr = NULL ∧ salt_len ≠ 0) := fun h => h.2 (hsalt h.1)
  have h2 : ¬ (ikm.ptr = NULL ∧ ikm_len ≠ 0) := fun h => h.2 (hikm h.1)
  have hR := hc.final_val (f.trace.length + 1 + 1 + 1)
    (S.crypto_auth_hmacsha512_update (f.trace.length + 1 + 1)
      (S.crypto_auth_hmacsha512_init (f.trace.length + 1) f.state
        (salt.data.take salt_len)).2 (ikm.data.take ikm_len)).2
    (salt.data.take salt_len) ([] ++ ikm.data.take ikm_len)
    (hc.update_rep _ _ _ _ _ (hc.init_rep _ _ _ (hs.init_rc _ _ _)) (hs.update_rc _ _ _))
    (hs.final_rc _ _)
  have hl := hc.digest_len (salt.data.take salt_len) (ikm.data.take ikm_len)
  simp only [List.nil_append] at hR
  simp [hkdf_hmacsha512_extract, extract_body, h1, h2, hprk, hw1, hw2, hw3, hs.boot,
    call_sodium_init, call_init, call_update, call_final, hs.init_rc, hs.update_rc,
    hs.final_rc, hR, writeAt_zero, hl]

/-! ### Arithmetic of the block count -/

theorem subSz_one (n : Nat) (h1 : 1 ≤ n) (h2 : n < SIZE_MOD) : subSz n 1 = n - 1 := by
  simp only [subSz, SIZE_MOD] at *
  omega

/-- For a validated length the `size_t` expression
`(output_len + HASH_LEN - 1) / HASH_LEN` is the exact quotient. -/
theorem block_count_eq (L : Nat) (h : L ≤ 255 * HASH_LEN) :
    subSz (addSz L HASH_LEN) 1 / HASH_LEN = (L + HASH_LEN - 1) / HASH_LEN := by
  simp only [subSz, addSz, SIZE_MOD, HASH_LEN] at *
  omega

theorem block_count_le (L : Nat) (h : L ≤ 255 * HASH_LEN) :
    (L + HASH_LEN - 1) / HASH_LEN ≤ 255 := by
  simp only [HASH_LEN] at *
  omega

/-! ### The blocks of RFC 5869 -/

theorem rfc5869_T_length (hmac : Bytes → Bytes → Bytes)
    (hlen : ∀ key m, (hmac key m).length = HASH_LEN) (PRK info : Bytes) (i : Nat) :
    (rfc5869_T hmac PRK info (i + 1)).length = HASH_LEN := by
  simp [rfc5869_T, hlen]

theorem rfc5869_blocks_length (hmac : Bytes → Bytes → Bytes)
    (hlen : ∀ key m, (hmac key m).length = HASH_LEN) (PRK info : Bytes) (n : Nat) :
    (rfc5869_blocks hmac PRK info n).length = n * HASH_LEN := by
  induction n with
  | zero => simp [rfc5869_blocks]
  | succ k ih =>
    simp only [rfc5869_blocks, List.length_append, ih, rfc5869_T_length hmac hlen]
    ring

/-- The previous block as the code reads it back from the output object: empty
while `T` is `NULL`, else the `HASH_LEN` bytes at `T`. -/
theorem read_previous_block (hmac : Bytes → Bytes → Bytes)
    (hlen : ∀ key m, (hmac key m).length = HASH_LEN) (PRK info rest : Bytes)
    (output i : Nat) (hout : output ≠ NULL) :
    readAt (rfc5869_blocks hmac PRK info i ++ rest)
        ((if i = 0 then NULL else output + (i - 1) * HASH_LEN) - output)
        (if (if i = 0 then NULL else output + (i - 1) * HASH_LEN) = NULL then 0 else HASH_LEN) =
      rfc5869_T hmac PRK info i := by
  cases i with
  | zero => simp [readAt, rfc5869_T]
  | succ j =>
    have hne : output + j * HASH_LEN ≠ NULL := by
      simp only [NULL] at *
      omega
    have hl := rfc5869_blocks_length hmac hlen PRK info j
    have hT := rfc5869_T_length hmac hlen PRK info j
    simp only [Nat.succ_ne_zero, if_false, Nat.add_sub_cancel, hne, Nat.add_sub_cancel_left,
      readAt, rfc5869_blocks, List.append_assoc]
    rw [List.drop_left' hl, List.take_left' hT]

/-! ### The loop, one pass at a time -/

theorem expand_loop_succ (S : Sodium) (prk info : Buf) (prk_len info_len output N : Nat)
    (fuel i T : Nat) (f : Frame) :
    expand_loop S prk prk_len info info_len output N (fuel + 1) i T f =
      if i < subSz N 1 then
        if (expand_loop_pass S prk prk_len info info_len output T i f).1 ≠ 0 then
          some (LoopExit.cleanup (expand_loop_pass S prk prk_len info info_len output T i f).1
            (expand_loop_pass S prk prk_len info info_len output T i f).2)
        else expand_loop S prk prk_len info info_len output N fuel (i + 1)
          (output + i * HASH_LEN) (expand_loop_pass S prk prk_len info info_len output T i f).2
      else some (LoopExit.done i T f) := by
  simp only [expand_loop, expand_loop_pass]
  split_ifs <;> simp_all [E_HKDF_FAILURE, E_HKDF_SUCCESS]

theorem block_head_frame (S : Sodium) (prk info : Buf) (prk_len info_len output T i : Nat)
    (f : Frame) :
    (expand_block_head S prk prk_len info info_len output T i f).2.out = f.out ∧
    (expand_block_head S prk prk_len info info_len output T i f).2.tmp_block = f.tmp_block := by
  simp only [expand_block_head, call_init, call_update]
  split_ifs <;> simp

theorem block_head_codes (S : Sodium) (prk info : Buf) (prk_len info_len output T i : Nat)
    (f : Frame) :
    (expand_block_head S prk prk_len info info_len output T i f).1 = E_HKDF_SUCCESS ∨
    (expand_block_head S prk prk_len info info_len output T i f).1 = E_HKDF_INIT ∨
    (expand_block_head S prk prk_len info info_len output T i f).1 = E_HKDF_FAILURE := by
  simp only [expand_block_head]
  split_ifs <;> simp

theorem loop_pass_codes (S : Sodium) (prk info : Buf) (prk_len info_len output T i : Nat)
    (f : Frame) :
    (expand_loop_pass S prk prk_len info info_len output T i f).1 = E_HKDF_SUCCESS ∨
    (expand_loop_pass S prk prk_len info info_len output T i f).1 = E_HKDF_INIT ∨
    (expand_loop_pass S prk prk_len info info_len output T i f).1 = E_HKDF_FAILURE := by
  have h := block_head_codes S prk info prk_len info_len output T i f
  simp only [expand_loop_pass]
  split_ifs <;> simp [h]

theorem T_at_succ (output i : Nat) : T_at output (i + 1) = output + i * HASH_LEN := by
  simp [T_at]

/-- How the loop ends, for a property `P i f` of the memory at the head of pass
`i` that every successful pass carries over: either every pass succeeded and
the loop is left with `i = N - 1`, or some pass `j` failed and control went to
`cleanup` with what that pass returned. -/
theorem expand_loop_cases (S : Sodium) (prk info : Buf) (prk_len info_len output N : Nat)
    (P : Nat → Frame → Prop)
    (hstep : ∀ i f, i < subSz N 1 → P i f →
      (expand_loop_pass S prk prk_len info info_len output (T_at output i) i f).1 = 0 →
      P (i + 1) (expand_loop_pass S prk prk_len info info_len output (T_at output i) i f).2) :
    ∀ fuel i f, i ≤ subSz N 1 → subSz N 1 - i < fuel → P i f →
      (∃ f1, expand_loop S prk prk_len info info_len output N fuel i (T_at output i) f =
          some (LoopExit.done (subSz N 1) (T_at output (subSz N 1)) f1) ∧ P (subSz N 1) f1) ∨
      (∃ j fj, i ≤ j ∧ j < subSz N 1 ∧ P j fj ∧
        (expand_loop_pass S prk prk_len info info_len output (T_at output j) j fj).1 ≠ 0 ∧
        expand_loop S prk prk_len info info_len output N fuel i (T_at output i) f =
          some (LoopExit.cleanup
            (expand_loop_pass S prk prk_len info info_len output (T_at output j) j fj).1
            (expand_loop_pass S prk prk_len info info_len output (T_at output j) j fj).2)) := by
  intro fuel
  induction fuel with
  | zero => intro i f _ h; omega
  | succ n ih =>
    intro i f hi hfuel hP
    rw [expand_loop_succ]
    by_cases hlt : i < subSz N 1
    · by_cases hrc : (expand_loop_pass S prk prk_len info info_len output (T_at output i) i f).1 = 0
      · have hP1 := hstep i f hlt hP hrc
        have := ih (i + 1) _ (by omega) (by omega) hP1
        rw [T_at_succ] at this
        simp only [hlt, if_true, hrc, ne_eq, not_true_eq_false, if_false]
        rcases this with ⟨f1, h1, h2⟩ | ⟨j, fj, h1, h2, h3, h4, h5⟩
        · exact Or.inl ⟨f1, h1, h2⟩
        · exact Or.inr ⟨j, fj, by omega, h2, h3, h4, h5⟩
      · refine Or.inr ⟨i, f, le_refl _, hlt, hP, hrc, ?_⟩
        simp [hlt, hrc]
    · have hi2 : i = subSz N 1 := by omega
      refine Or.inl ⟨f, ?_, hi2 ▸ hP⟩
      simp only [hlt, if_false]
      rw [← hi2]

/-! ### What a successful block computes -/

/-- When the four calls that open a block all return `0`, the state stands for
the message `T || info || seq` under the key PRK, and exactly those four calls
were made. -/
theorem block_head_ok (S : Sodium) (R : Bytes → Bytes → Bytes → Prop)
    (hmac : Bytes → Bytes → Bytes) (hc : LibComputes S R hmac)
    (prk info : Buf) (prk_len info_len output T i : Nat) (f : Frame)
    (h0 : (expand_block_head S prk prk_len info info_len output T i f).1 = 0) :
    R (expand_block_head S prk prk_len info info_len output T i f).2.state
      (prk.data.take prk_len)
      (readAt f.out (T - output) (if T = NULL then 0 else HASH_LEN) ++
        info.data.take info_len ++ [(i + 1) % 256]) ∧
    (expand_block_head S prk prk_len info info_len output T i f).2.trace =
      f.trace ++ [LibCall.hmacsha512_init (prk.data.take prk_len),
        LibCall.hmacsha512_update (readAt f.out (T - output) (if T = NULL then 0 else HASH_LEN)),
        LibCall.hmacsha512_update (info.data.take info_len),
        LibCall.hmacsha512_update [(i + 1) % 256]] := by
  simp only [expand_block_head, call_init, call_update] at h0 ⊢
  generalize readAt f.out (T - output) (if T = NULL then 0 else HASH_LEN) = d at h0 ⊢
  split_ifs at h0 ⊢ with h1 h2 h3 h4
  · simp [E_HKDF_INIT] at h0
  · simp [E_HKDF_FAILURE] at h0
  · simp [E_HKDF_FAILURE] at h0
  · simp [E_HKDF_FAILURE] at h0
  · simp only [ne_eq, not_not] at h1 h2 h3 h4
    have hR := hc.update_rep _ _ _ _ _
      (hc.update_rep _ _ _ _ _ (hc.update_rep _ _ _ _ _ (hc.init_rep _ _ _ h1) h2) h3) h4
    simp only [List.nil_append] at hR
    refine ⟨?_, ?_⟩
    · simpa using hR
    · simp

theorem expand_calls_length (hmac : Bytes → Bytes → Bytes) (PRK info : Bytes) (n : Nat) :
    (expand_calls hmac PRK info n).length = 5 * n := by
  induction n with
  | zero => simp [expand_calls]
  | succ k ih =>
    simp only [expand_calls, List.length_append, ih, block_calls, List.length_cons,
      List.length_nil]
    omega

theorem loop_pass_fst (S : Sodium) (prk info : Buf) (prk_len info_len output T i : Nat)
    (f : Frame)
    (hh : (expand_block_head S prk prk_len info info_len output T i f).1 = 0) :
    (expand_loop_pass S prk prk_len info info_len output T i f).1 =
      if (call_final S (expand_block_head S prk prk_len info info_len output T i f).2).1 ≠ 0
      then E_HKDF_FAILURE else E_HKDF_SUCCESS := by
  simp only [expand_loop_pass, hh, ne_eq, not_true_eq_false, if_false]
  split_ifs <;> rfl

theorem loop_pass_snd (S : Sodium) (prk info : Buf) (prk_len info_len output T i : Nat)
    (f : Frame)
    (hh : (expand_block_head S prk prk_len info info_len output T i f).1 = 0) :
    (expand_loop_pass S prk prk_len info info_len output T i f).2 =
      { (call_final S (expand_block_head S prk prk_len info info_len output T i f).2).2.1 with
        out := writeAt
          (call_final S (expand_block_head S prk prk_len info info_len output T i f).2).2.1.out
          (i * HASH_LEN)
          (call_final S (expand_block_head S prk prk_len info info_len output T i f).2).2.2 } := by
  simp only [expand_loop_pass, hh, ne_eq, not_true_eq_false, if_false]
  split_ifs <;> rfl

theorem loop_pass_head (S : Sodium) (prk info : Buf) (prk_len info_len output T i : Nat)
    (f : Frame)
    (hh : (expand_block_head S prk prk_len info info_len output T i f).1 ≠ 0) :
    expand_loop_pass S prk prk_len info info_len output T i f =
      expand_block_head S prk prk_len info info_len output T i f := by
  simp only [expand_loop_pass, hh, ne_eq, not_false_eq_true, if_true]

/-- A pass of the loop whose five calls all return `0` appends the block
`T(i + 1)` to the blocks in place and touches nothing else. -/
theorem loop_pass_ok (S : Sodium) (R : Bytes → Bytes → Bytes → Prop)
    (hmac : Bytes → Bytes → Bytes) (hc : LibComputes S R hmac)
    (prk info : Buf) (prk_len info_len output i : Nat) (f : Frame)
    (orig : Bytes) (t0 : List LibCall) (tmp : Bytes)
    (hout : output ≠ NULL) (hi : i + 1 < 256)
    (hinv : LoopInv hmac (prk.data.take prk_len) (info.data.take info_len) orig t0 tmp i f)
    (h0 : (expand_loop_pass S prk prk_len info info_len output (T_at output i) i f).1 = 0) :
    LoopInv hmac (prk.data.take prk_len) (info.data.take info_len) orig t0 tmp (i + 1)
      (expand_loop_pass S prk prk_len info info_len output (T_at output i) i f).2 := by
  obtain ⟨ho, ht, hb⟩ := hinv
  have hh : (expand_block_head S prk prk_len info info_len output (T_at output i) i f).1 = 0 := by
    by_contra hne
    rw [loop_pass_head S prk info prk_len info_len output _ i f hne] at h0
    exact hne h0
  obtain ⟨hR, htr⟩ := block_head_ok S R hmac hc prk info prk_len info_len output _ i f hh
  obtain ⟨hfo, hfb⟩ := block_head_frame S prk info prk_len info_len output (T_at output i) i f
  have hf0 : (call_final S
      (expand_block_head S prk prk_len info info_len output (T_at output i) i f).2).1 = 0 := by
    by_contra hne
    rw [loop_pass_fst S prk info prk_len info_len output _ i f hh, if_pos hne] at h0
    simp [E_HKDF_FAILURE] at h0
  have hprev := read_previous_block hmac hc.digest_len (prk.data.take prk_len)
    (info.data.take info_len) (orig.drop (i * HASH_LEN)) output i hout
  rw [← ho] at hprev
  have hprev2 : readAt f.out (T_at output i - output)
      (if T_at output i = NULL then 0 else HASH_LEN) =
      rfc5869_T hmac (prk.data.take prk_len) (info.data.take info_len) i := hprev
  rw [hprev2] at hR htr
  have hmod : (i + 1) % 256 = i + 1 := Nat.mod_eq_of_lt hi
  rw [hmod] at hR htr
  have hv := hc.final_val _ _ _ _ hR hf0
  have hlen := rfc5869_blocks_length hmac hc.digest_len (prk.data.take prk_len)
    (info.data.take info_len) i
  have hdl := hc.digest_len (prk.data.take prk_len)
    (rfc5869_T hmac (prk.data.take prk_len) (info.data.take info_len) i ++
      info.data.take info_len ++ [i + 1])
  rw [loop_pass_snd S prk info prk_len info_len output _ i f hh]
  refine ⟨?_, ?_, ?_⟩
  · show writeAt (expand_block_head S prk prk_len info info_len output (T_at output i) i f).2.out
      (i * HASH_LEN) (S.crypto_auth_hmacsha512_final _ _).2.2 = _
    rw [hfo, ho, hv, writeAt_append _ _ _ _ hlen, hdl]
    simp only [rfc5869_blocks, rfc5869_T, List.drop_drop, List.append_assoc]
    congr 3
    simp only [HASH_LEN]; ring
  · show (expand_block_head S prk prk_len info info_len output (T_at output i) i f).2.trace ++
      [LibCall.hmacsha512_final] = _
    rw [htr, ht]
    simp [expand_calls, block_calls]
  · show (expand_block_head S prk prk_len info info_len output (T_at output i) i f).2.tmp_block
      = tmp
    rw [hfb, hb]

/-! ### The last block -/

theorem expand_last_codes (S : Sodium) (prk info : Buf)
    (prk_len info_len output output_len N i T : Nat) (f : Frame) :
    (expand_last S prk prk_len info info_len output output_len N i T f).1 = E_HKDF_SUCCESS ∨
    (expand_last S prk prk_len info info_len output output_len N i T f).1 = E_HKDF_INIT ∨
    (expand_last S prk prk_len info info_len output output_len N i T f).1 = E_HKDF_FAILURE := by
  have h := block_head_codes S prk info prk_len info_len output T i f
  simp only [expand_last]
  split_ifs <;> simp [h]

theorem expand_last_head (S : Sodium) (prk info : Buf)
    (prk_len info_len output output_len N i T : Nat) (f : Frame)
    (hh : (expand_block_head S prk prk_len info info_len output T i f).1 ≠ 0) :
    expand_last S prk prk_len info info_len output output_len N i T f =
      expand_block_head S prk prk_len info info_len output T i f := by
  simp only [expand_last, hh, ne_eq, not_false_eq_true, if_true]

theorem expand_last_final (S : Sodium) (prk info : Buf)
    (prk_len info_len output output_len N i T : Nat) (f : Frame)
    (hh : (expand_block_head S prk prk_len info info_len output T i f).1 = 0)
    (hf : (call_final S (expand_block_head S prk prk_len info info_len output T i f).2).1 ≠ 0) :
    expand_last S prk prk_len info info_len output output_len N i T f =
      (E_HKDF_FAILURE,
        { (call_final S (expand_block_head S prk prk_len info info_len output T i f).2).2.1 with
          tmp_block := writeAt
            (call_final S
              (expand_block_head S prk prk_len info info_len output T i f).2).2.1.tmp_block 0
            (call_final S (expand_block_head S prk prk_len info info_len output T i f).2).2.2 }) := by
  simp only [expand_last, hh, hf, ne_eq, not_true_eq_false, not_false_eq_true, if_true, if_false]

theorem expand_last_copy (S : Sodium) (prk info : Buf)
    (prk_len info_len output output_len N i T : Nat) (f : Frame)
    (hh : (expand_block_head S prk prk_len info info_len output T i f).1 = 0)
    (hf : (call_final S (expand_block_head S prk prk_len info info_len output T i f).2).1 = 0) :
    (expand_last S prk prk_len info info_len output output_len N i T f).1 = E_HKDF_SUCCESS ∧
    (expand_last S prk prk_len info info_len output output_len N i T f).2.out =
      writeAt (expand_block_head S prk prk_len info info_len output T i f).2.out
        (mulSz (subSz N 1) HASH_LEN)
        ((writeAt (expand_block_head S prk prk_len info info_len output T i f).2.tmp_block 0
          (call_final S (expand_block_head S prk prk_len info info_len output T i f).2).2.2).take
          (if 0 = output_len % HASH_LEN then HASH_LEN else output_len % HASH_LEN)) ∧
    (expand_last S prk prk_len info info_len output output_len N i T f).2.trace =
      (expand_block_head S prk prk_len info info_len output T i f).2.trace ++
        [LibCall.hmacsha512_final] := by
  simp only [expand_last, hh, hf, ne_eq, not_true_eq_false, if_false]
  split_ifs <;> simp [call_final]

theorem last_offset (N : Nat) (h1 : 1 ≤ N) (h2 : N ≤ 255) :
    mulSz (subSz N 1) HASH_LEN = (N - 1) * HASH_LEN := by
  simp only [mulSz, subSz, SIZE_MOD, HASH_LEN]
  omega

/-- The last block, when its five calls all return `0`: the output object then
holds the first `L` bytes of `T(1) || ... || T(N)` and, behind them, what it
held before the call. -/
theorem expand_last_ok (S : Sodium) (R : Bytes → Bytes → Bytes → Prop)
    (hmac : Bytes → Bytes → Bytes) (hc : LibComputes S R hmac)
    (prk info : Buf) (prk_len info_len output L M : Nat) (f : Frame)
    (orig : Bytes) (t0 : List LibCall) (tmp : Bytes)
    (hout : output ≠ NULL) (hL : L ≤ 255 * HASH_LEN)
    (hN : M + 1 = (L + HASH_LEN - 1) / HASH_LEN)
    (hinv : LoopInv hmac (prk.data.take prk_len) (info.data.take info_len) orig t0 tmp M f)
    (h0 : (expand_last S prk prk_len info info_len output L (M + 1) M (T_at output M) f).1 = 0) :
    (expand_last S prk prk_len info info_len output L (M + 1) M (T_at output M) f).2.out =
      rfc5869_okm hmac (prk.data.take prk_len) (info.data.take info_len) L ++ orig.drop L ∧
    (expand_last S prk prk_len info info_len output L (M + 1) M (T_at output M) f).2.trace =
      t0 ++ [LibCall.sodium_init] ++
        expand_calls hmac (prk.data.take prk_len) (info.data.take info_len) (M + 1) := by
  obtain ⟨ho, ht, hb⟩ := hinv
  have hM : M + 1 ≤ 255 := by
    have := block_count_le L hL
    omega
  have hh : (expand_block_head S prk prk_len info info_len output (T_at output M) M f).1 = 0 := by
    by_contra hne
    rw [expand_last_head S prk info prk_len info_len output L _ M _ f hne] at h0
    exact hne h0
  obtain ⟨hR, htr⟩ := block_head_ok S R hmac hc prk info prk_len info_len output _ M f hh
  obtain ⟨hfo, hfb⟩ := block_head_frame S prk info prk_len info_len output (T_at output M) M f
  have hf0 : (call_final S
      (expand_block_head S prk prk_len info info_len output (T_at output M) M f).2).1 = 0 := by
    by_contra hne
    rw [expand_last_final S prk info prk_len info_len output L _ M _ f hh hne] at h0
    simp [E_HKDF_FAILURE] at h0
  have hprev := read_previous_block hmac hc.digest_len (prk.data.take prk_len)
    (info.data.take info_len) (orig.drop (M * HASH_LEN)) output M hout
  rw [← ho] at hprev
  have hprev2 : readAt f.out (T_at output M - output)
      (if T_at output M = NULL then 0 else HASH_LEN) =
      rfc5869_T hmac (prk.data.take prk_len) (info.data.take info_len) M := hprev
  rw [hprev2] at hR htr
  have hmod : (M + 1) % 256 = M + 1 := Nat.mod_eq_of_lt (by omega)
  rw [hmod] at hR htr
  have hv : (call_final S
      (expand_block_head S prk prk_len info info_len output (T_at output M) M f).2).2.2 =
      rfc5869_T hmac (prk.data.take prk_len) (info.data.take info_len) (M + 1) :=
    hc.final_val _ _ _ _ hR hf0
  have hlen := rfc5869_blocks_length hmac hc.digest_len (prk.data.take prk_len)
    (info.data.take info_len) M
  have hTl := rfc5869_T_length hmac hc.digest_len (prk.data.take prk_len)
    (info.data.take info_len) M
  obtain ⟨-, hout2, htr2⟩ :=
    expand_last_copy S prk info prk_len info_len output L (M + 1) M (T_at output M) f hh hf0
  refine ⟨?_, ?_⟩
  · rw [hout2, hfo, hfb, hv, ho, last_offset (M + 1) (by omega) hM, writeAt_zero,
      Nat.add_sub_cancel, writeAt_append _ _ _ _ hlen]
    have hk : (if 0 = L % HASH_LEN then HASH_LEN else L % HASH_LEN) = L - M * HASH_LEN := by
      simp only [HASH_LEN] at hN ⊢
      split_ifs <;> omega
    have hk2 : L - M * HASH_LEN ≤ HASH_LEN := by
      simp only [HASH_LEN] at hN ⊢
      omega
    have hk3 : M * HASH_LEN ≤ L := by
      simp only [HASH_LEN] at hN ⊢
      omega
    have e1 : (rfc5869_blocks hmac (prk.data.take prk_len) (info.data.take info_len) M).take L =
        rfc5869_blocks hmac (prk.data.take prk_len) (info.data.take info_len) M :=
      List.take_of_length_le (by rw [hlen]; exact hk3)
    have hokm : rfc5869_okm hmac (prk.data.take prk_len) (info.data.take info_len) L =
        rfc5869_blocks hmac (prk.data.take prk_len) (info.data.take info_len) M ++
          (rfc5869_T hmac (prk.data.take prk_len) (info.data.take info_len) (M + 1)).take
            (L - M * HASH_LEN) := by
      simp only [rfc5869_okm, ← hN, rfc5869_blocks]
      rw [List.take_append_eq_append_take, hlen, e1]
    have e2 : M * HASH_LEN + (L - M * HASH_LEN) = L := by omega
    rw [hk, List.take_append_of_le_length (by rw [hTl]; exact hk2), hokm, List.drop_drop,
      List.length_take, hTl, min_eq_left hk2, e2]
  · rw [htr2, htr, ht]
    simp [expand_calls, block_calls]

/-! ### The whole computation -/

/-- With valid arguments the body is the computation from `sodium_init` on. -/
theorem expand_body_valid (S : Sodium) (prk info : Buf) (prk_len info_len output output_len : Nat)
    (f : Frame) (h1 : prk.ptr ≠ NULL) (h2 : HASH_LEN ≤ prk_len)
    (h3 : wraps prk.ptr prk_len = false) (h4 : info.ptr = NULL → info_len = 0)
    (h5 : wraps info.ptr info_len = false) (h6 : output = NULL → output_len = 0)
    (h7 : output_len ≤ 255 * HASH_LEN) (h8 : wraps output output_len = false) :
    expand_body S prk prk_len info info_len output output_len f =
      expand_compute S prk prk_len info info_len output output_len f := by
  have c2 : ¬ prk_len < HASH_LEN := by omega
  have c4 : ¬ (info.ptr = NULL ∧ info_len ≠ 0) := fun h => h.2 (h4 h.1)
  have c6 : ¬ ((output = NULL ∧ output_len ≠ 0) ∨ output_len > 255 * HASH_LEN) := by
    rintro (h | h)
    · exact h.2 (h6 h.1)
    · omega
  simp only [expand_body, expand_compute, h1, c2, h3, c4, h5, c6, h8, if_false,
    Bool.false_eq_true]

/-- How the computation ends, for a property `P i f` of the memory at the head
of block `i + 1` that holds after the bootstrap and that every successful pass
of the loop carries over: the bootstrap fails; or the length is `0`; or a pass
of the loop fails; or the loop is left after `N - 1` passes and the last block
decides. -/
theorem expand_compute_cases (S : Sodium) (prk info : Buf)
    (prk_len info_len output L : Nat) (f : Frame) (P : Nat → Frame → Prop)
    (hL : L ≤ 255 * HASH_LEN)
    (hstep : ∀ i f, i + 1 < (L + HASH_LEN - 1) / HASH_LEN → P i f →
      (expand_loop_pass S prk prk_len info info_len output (T_at output i) i f).1 = 0 →
      P (i + 1) (expand_loop_pass S prk prk_len info info_len output (T_at output i) i f).2)
    (hP : P 0 (call_sodium_init S f).2) :
    (S.sodium_init = -1 ∧ expand_compute S prk prk_len info info_len output L f =
        some (E_HKDF_INIT, (call_sodium_init S f).2)) ∨
    (S.sodium_init ≠ -1 ∧ L = 0 ∧ expand_compute S prk prk_len info info_len output L f =
        some (E_HKDF_SUCCESS, (call_sodium_init S f).2)) ∨
    (S.sodium_init ≠ -1 ∧ ∃ j fj, j + 1 < (L + HASH_LEN - 1) / HASH_LEN ∧ P j fj ∧
      (expand_loop_pass S prk prk_len info info_len output (T_at output j) j fj).1 ≠ 0 ∧
      expand_compute S prk prk_len info info_len output L f =
        some (expand_loop_pass S prk prk_len info info_len output (T_at output j) j fj)) ∨
    (S.sodium_init ≠ -1 ∧ ∃ M f1, M + 1 = (L + HASH_LEN - 1) / HASH_LEN ∧ P M f1 ∧
      expand_compute S prk prk_len info info_len output L f =
        some (expand_last S prk prk_len info info_len output L (M + 1) M (T_at output M) f1)) := by
  have hN := block_count_eq L hL
  have hN255 := block_count_le L hL
  by_cases hb : S.sodium_init = -1
  · exact Or.inl ⟨hb, by simp [expand_compute, call_sodium_init, hb]⟩
  by_cases hz : L = 0
  · refine Or.inr (Or.inl ⟨hb, hz, ?_⟩)
    subst hz
    have h00 : subSz (addSz 0 HASH_LEN) 1 / HASH_LEN = 0 := by
      rw [hN]
      simp [HASH_LEN]
    have hb2 : ¬ (call_sodium_init S f).1 = -1 := hb
    simp only [expand_compute, hb2, if_false, h00, if_true]
  obtain ⟨M, hM⟩ : ∃ M, M + 1 = (L + HASH_LEN - 1) / HASH_LEN := by
    refine ⟨(L + HASH_LEN - 1) / HASH_LEN - 1, ?_⟩
    simp only [HASH_LEN] at *
    omega
  have hsub : subSz (M + 1) 1 = M := by
    rw [subSz_one (M + 1) (by omega) (by simp only [SIZE_MOD]; omega)]
    rfl
  have hcases := expand_loop_cases S prk info prk_len info_len output (M + 1) P
    (fun i f hi => hstep i f (by rw [hsub] at hi; omega)) (M + 1) 0 (call_sodium_init S f).2
    (by omega) (by rw [hsub]; omega) hP
  have hT0 : T_at output 0 = NULL := rfl
  rw [hsub, hT0] at hcases
  have hne : ¬ (0 = M + 1) := by omega
  have hb2 : ¬ (call_sodium_init S f).1 = -1 := hb
  rcases hcases with ⟨f1, h1, h2⟩ | ⟨j, fj, -, h2, h3, h4, h5⟩
  · refine Or.inr (Or.inr (Or.inr ⟨hb, M, f1, hM, h2, ?_⟩))
    simp only [expand_compute, hb2, if_false, hN, ← hM, hne, h1]
  · refine Or.inr (Or.inr (Or.inl ⟨hb, j, fj, by omega, h3, h4, ?_⟩))
    simp only [expand_compute, hb2, if_false, hN, ← hM, hne, h5]

/-- The validation either stops the body with `NULLPTR`, `LENGTH` or
`OVERFLOW` and the memory it was entered with, or all the arguments are valid
and the body is the computation from `sodium_init` on. -/
theorem expand_body_cases (S : Sodium) (prk info : Buf)
    (prk_len info_len output output_len : Nat) (f : Frame) :
    (∃ c, (c = E_HKDF_NULLPTR ∨ c = E_HKDF_LENGTH ∨ c = E_HKDF_OVERFLOW) ∧
      expand_body S prk prk_len info info_len output output_len f = some (c, f)) ∨
    ((prk.ptr ≠ NULL ∧ HASH_LEN ≤ prk_len ∧ wraps prk.ptr prk_len = false ∧
      (info.ptr = NULL → info_len = 0) ∧ wraps info.ptr info_len = false ∧
      (output = NULL → output_len = 0) ∧ output_len ≤ 255 * HASH_LEN ∧
      wraps output output_len = false) ∧
      expand_body S prk prk_len info info_len output output_len f =
        expand_compute S prk prk_len info info_len output output_len f) := by
  by_cases c1 : prk.ptr = NULL
  · exact Or.inl ⟨_, Or.inl rfl, by simp [expand_body, c1]⟩
  by_cases c2 : prk_len < HASH_LEN
  · exact Or.inl ⟨_, Or.inr (Or.inl rfl), by simp [expand_body, c1, c2]⟩
  by_cases c3 : wraps prk.ptr prk_len = true
  · exact Or.inl ⟨_, Or.inr (Or.inr rfl), by simp [expand_body, c1, c2, c3]⟩
  by_cases c4 : info.ptr = NULL ∧ info_len ≠ 0
  · exact Or.inl ⟨_, Or.inr (Or.inl rfl), by simp [expand_body, c1, c2, c3, c4]⟩
  by_cases c5 : wraps info.ptr info_len = true
  · exact Or.inl ⟨_, Or.inr (Or.inr rfl), by simp [expand_body, c1, c2, c3, c4, c5]⟩
  by_cases c6 : (output = NULL ∧ output_len ≠ 0) ∨ output_len > 255 * HASH_LEN
  · exact Or.inl ⟨_, Or.inr (Or.inl rfl), by simp [expand_body, c1, c2, c3, c4, c5, c6]⟩
  by_cases c7 : wraps output output_len = true
  · exact Or.inl ⟨_, Or.inr (Or.inr rfl), by simp [expand_body, c1, c2, c3, c4, c5, c6, c7]⟩
  have v2 : HASH_LEN ≤ prk_len := by omega
  have v3 : wraps prk.ptr prk_len = false := by simpa using c3
  have v4 : info.ptr = NULL → info_len = 0 := fun h => by_contra fun hn => c4 ⟨h, hn⟩
  have v5 : wraps info.ptr info_len = false := by simpa using c5
  have v6 : output = NULL → output_len = 0 := fun h => by_contra fun hn => c6 (Or.inl ⟨h, hn⟩)
  have v7 : output_len ≤ 255 * HASH_LEN := by
    by_contra hn
    exact c6 (Or.inr (by omega))
  have v8 : wraps output output_len = false := by simpa using c7
  exact Or.inr ⟨⟨c1, v2, v3, v4, v5, v6, v7, v8⟩,
    expand_body_valid S prk info prk_len info_len output output_len f c1 v2 v3 v4 v5 v6 v7 v8⟩

/-- The computation always ends, with `SUCCESS`, `INIT` or `FAILURE`. -/
theorem expand_compute_total (S : Sodium) (prk info : Buf)
    (prk_len info_len output L : Nat) (f : Frame) (hL : L ≤ 255 * HASH_LEN) :
    ∃ r, expand_compute S prk prk_len info info_len output L f = some r ∧
      (r.1 = E_HKDF_SUCCESS ∨ r.1 = E_HKDF_INIT ∨ r.1 = E_HKDF_FAILURE) := by
  rcases expand_compute_cases S prk info prk_len info_len output L f (fun _ _ => True) hL
    (fun _ _ _ _ _ => trivial) trivial with
    ⟨-, h⟩ | ⟨-, -, h⟩ | ⟨-, j, fj, -, -, -, h⟩ | ⟨-, M, f1, -, -, h⟩
  · exact ⟨_, h, Or.inr (Or.inl rfl)⟩
  · exact ⟨_, h, Or.inl rfl⟩
  · exact ⟨_, h, loop_pass_codes S prk info prk_len info_len output _ j fj⟩
  · exact ⟨_, h, expand_last_codes S prk info prk_len info_len output L _ M _ f1⟩

theorem expand_of_body (S : Sodium) (prk info : Buf)
    (prk_len info_len output output_len : Nat) (f : Frame) (r : Int × Frame)
    (h : expand_body S prk prk_len info info_len output output_len f = some r) :
    hkdf_hmacsha512_expand S prk prk_len info info_len output output_len f =
      some (r.1, { r.2 with state := sodium_memzero r.2.state,
                            tmp_block := sodium_memzero r.2.tmp_block }) := by
  simp only [hkdf_hmacsha512_expand, h]

/-- The function always returns. -/
theorem expand_total (S : Sodium) (prk info : Buf)
    (prk_len info_len output output_len : Nat) (f : Frame) :
    ∃ r, hkdf_hmacsha512_expand S prk prk_len info info_len output output_len f = some r := by
  rcases expand_body_cases S prk info prk_len info_len output output_len f with
    ⟨c, -, h⟩ | ⟨⟨-, -, -, -, -, -, h7, -⟩, h⟩
  · exact ⟨_, expand_of_body S prk info prk_len info_len output output_len f _ h⟩
  · obtain ⟨r, hr, -⟩ := expand_compute_total S prk info prk_len info_len output output_len f h7
    exact ⟨_, expand_of_body S prk info prk_len info_len output output_len f _ (h.trans hr)⟩

/-! ### Correctness of the computation -/

/-- Whenever the computation ends with `SUCCESS` under a library that
computes `hmac`, the output object holds the first `L` bytes of
`T(1) || ... || T(N)` followed by what it held beyond them, and the library
calls made are the bootstrap and those of the `N` blocks. -/
theorem expand_compute_sound (S : Sodium) (R : Bytes → Bytes → Bytes → Prop)
    (hmac : Bytes → Bytes → Bytes) (hc : LibComputes S R hmac) (prk info : Buf)
    (prk_len info_len output L : Nat) (f : Frame) (hL : L ≤ 255 * HASH_LEN)
    (hout : output = NULL → L = 0) (r : Int × Frame)
    (hr : expand_compute S prk prk_len info info_len output L f = some r) (h0 : r.1 = 0) :
    r.2.out = rfc5869_okm hmac (prk.data.take prk_len) (info.data.take info_len) L ++
      f.out.drop L ∧
    r.2.trace = f.trace ++ [LibCall.sodium_init] ++
      expand_calls hmac (prk.data.take prk_len) (info.data.take info_len)
        ((L + HASH_LEN - 1) / HASH_LEN) := by
  have hN255 := block_count_le L hL
  have hout2 : ∀ i, i + 1 ≤ (L + HASH_LEN - 1) / HASH_LEN → output ≠ NULL := by
    intro i hi hnull
    have := hout hnull
    subst this
    simp [HASH_LEN] at hi
  rcases expand_compute_cases S prk info prk_len info_len output L f
    (LoopInv hmac (prk.data.take prk_len) (info.data.take info_len) f.out f.trace f.tmp_block) hL
    (fun i g hi hP hz => loop_pass_ok S R hmac hc prk info prk_len info_len output i g f.out
      f.trace f.tmp_block (hout2 i (by omega)) (by omega) hP hz)
    ⟨by simp [call_sodium_init, rfc5869_blocks], by simp [call_sodium_init, expand_calls], rfl⟩
    with ⟨-, h⟩ | ⟨-, hz, h⟩ | ⟨-, j, fj, -, -, hne, h⟩ | ⟨-, M, f1, hM, hP, h⟩
  · rw [h] at hr
    cases hr
    simp [E_HKDF_INIT] at h0
  · rw [h] at hr
    cases hr
    subst hz
    simp [call_sodium_init, rfc5869_okm, expand_calls, HASH_LEN]
  · rw [h] at hr
    cases hr
    exact absurd h0 hne
  · rw [h] at hr
    cases hr
    rw [← hM]
    exact expand_last_ok S R hmac hc prk info prk_len info_len output L M f1 f.out f.trace
      f.tmp_block (hout2 M (by omega)) hL hM hP h0

theorem block_head_succeeds (S : Sodium) (hs : LibSucceeds S) (prk info : Buf)
    (prk_len info_len output T i : Nat) (f : Frame) :
    (expand_block_head S prk prk_len info info_len output T i f).1 = 0 := by
  simp [expand_block_head, call_init, call_update, hs.init_rc, hs.update_rc, E_HKDF_SUCCESS]

/-- Under a library whose calls succeed the computation ends with `SUCCESS`. -/
theorem expand_compute_success (S : Sodium) (hs : LibSucceeds S) (prk info : Buf)
    (prk_len info_len output L : Nat) (f : Frame) (hL : L ≤ 255 * HASH_LEN) :
    ∃ r, expand_compute S prk prk_len info info_len output L f = some r ∧
      r.1 = E_HKDF_SUCCESS := by
  rcases expand_compute_cases S prk info prk_len info_len output L f (fun _ _ => True) hL
    (fun _ _ _ _ _ => trivial) trivial with
    ⟨hb, -⟩ | ⟨-, -, h⟩ | ⟨-, j, fj, -, -, hne, -⟩ | ⟨-, M, f1, -, -, h⟩
  · exact absurd hb hs.boot
  · exact ⟨_, h, rfl⟩
  · exfalso
    apply hne
    rw [loop_pass_fst S prk info prk_len info_len output _ j fj
      (block_head_succeeds S hs prk info prk_len info_len output _ j fj)]
    simp [call_final, hs.final_rc, E_HKDF_SUCCESS]
  · refine ⟨_, h, ?_⟩
    exact (expand_last_copy S prk info prk_len info_len output L (M + 1) M _ f1
      (block_head_succeeds S hs prk info prk_len info_len output _ M f1)
      (by simp [call_final, hs.final_rc])).1

theorem rfc5869_okm_length (hmac : Bytes → Bytes → Bytes)
    (hlen : ∀ key m, (hmac key m).length = HASH_LEN) (PRK info : Bytes) (L : Nat) :
    (rfc5869_okm hmac PRK info L).length = L := by
  simp only [rfc5869_okm, List.length_take, rfc5869_blocks_length hmac hlen]
  simp only [HASH_LEN]
  omega

/-- Expand on valid arguments under a library that succeeds and computes
`hmac`: the call returns `SUCCESS` with the output keying material in place. -/
theorem expand_ok (S : Sodium) (R : Bytes → Bytes → Bytes → Prop)
    (hmac : Bytes → Bytes → Bytes) (hs : LibSucceeds S) (hc : LibComputes S R hmac)
    (prk info : Buf) (prk_len info_len output L : Nat) (f : Frame)
    (h1 : prk.ptr ≠ NULL) (h2 : HASH_LEN ≤ prk_len) (h3 : wraps prk.ptr prk_len = false)
    (h4 : info.ptr = NULL → info_len = 0) (h5 : wraps info.ptr info_len = false)
    (h6 : output = NULL → L = 0) (h7 : L ≤ 255 * HASH_LEN) (h8 : wraps output L = false) :
    ∃ r, hkdf_hmacsha512_expand S prk prk_len info info_len output L f = some r ∧
      r.1 = E_HKDF_SUCCESS ∧
      r.2.out = rfc5869_okm hmac (prk.data.take prk_len) (info.data.take info_len) L ++
        f.out.drop L ∧
      r.2.trace = f.trace ++ [LibCall.sodium_init] ++
        expand_calls hmac (prk.data.take prk_len) (info.data.take info_len)
          ((L + HASH_LEN - 1) / HASH_LEN) := by
  obtain ⟨r, hr, h0⟩ := expand_compute_success S hs prk info prk_len info_len output L f h7
  obtain ⟨ho, ht⟩ := expand_compute_sound S R hmac hc prk info prk_len info_len output L f h7
    h6 r hr h0
  have hb := expand_body_valid S prk info prk_len info_len output L f h1 h2 h3 h4 h5 h6 h7 h8
  exact ⟨_, expand_of_body S prk info prk_len info_len output L f r (hb.trans hr), h0, ho, ht⟩

/-- A successful call of Expand, under a library that computes `hmac`, has
left the output keying material in place. -/
theorem expand_success_out (S : Sodium) (R : Bytes → Bytes → Bytes → Prop)
    (hmac : Bytes → Bytes → Bytes) (hc : LibComputes S R hmac)
    (prk info : Buf) (prk_len info_len output L : Nat) (f : Frame) (r : Int × Frame)
    (hr : hkdf_hmacsha512_expand S prk prk_len info info_len output L f = some r)
    (h0 : r.1 = E_HKDF_SUCCESS) :
    r.2.out = rfc5869_okm hmac (prk.data.take prk_len) (info.data.take info_len) L ++
      f.out.drop L := by
  rcases expand_body_cases S prk info prk_len info_len output L f with
    ⟨c, hc3, h⟩ | ⟨⟨-, -, -, -, -, h6, h7, -⟩, h⟩
  · rw [expand_of_body S prk info prk_len info_len output L f _ h] at hr
    cases hr
    rcases hc3 with h | h | h <;> rw [h] at h0 <;>
      simp [E_HKDF_NULLPTR, E_HKDF_LENGTH, E_HKDF_OVERFLOW, E_HKDF_SUCCESS] at h0
  · obtain ⟨r1, hr1, -⟩ := expand_compute_total S prk info prk_len info_len output L f h7
    rw [expand_of_body S prk info prk_len info_len output L f r1 (h.trans hr1)] at hr
    cases hr
    exact (expand_compute_sound S R hmac hc prk info prk_len info_len output L f h7 h6 r1 hr1
      h0).1

/-- Expand on valid arguments under a library whose calls succeed returns
`SUCCESS`. -/
theorem expand_succeeds (S : Sodium) (hs : LibSucceeds S)
    (prk info : Buf) (prk_len info_len output L : Nat) (f : Frame)
    (h1 : prk.ptr ≠ NULL) (h2 : HASH_LEN ≤ prk_len) (h3 : wraps prk.ptr prk_len = false)
    (h4 : info.ptr = NULL → info_len = 0) (h5 : wraps info.ptr info_len = false)
    (h6 : output = NULL → L = 0) (h7 : L ≤ 255 * HASH_LEN) (h8 : wraps output L = false) :
    ∃ r, hkdf_hmacsha512_expand S prk prk_len info info_len output L f = some r ∧
      r.1 = E_HKDF_SUCCESS := by
  obtain ⟨r, hr, h0⟩ := expand_compute_success S hs prk info prk_len info_len output L f h7
  have hb := expand_body_valid S prk info prk_len info_len output L f h1 h2 h3 h4 h5 h6 h7 h8
  exact ⟨_, expand_of_body S prk info prk_len info_len output L f r (hb.trans hr), h0⟩

/-- An output length above `255 * 64`, with a valid PRK and a valid info, is
answered with `LENGTH` before any library call. -/
theorem expand_too_long (S : Sodium) (prk info : Buf) (prk_len info_len output L : Nat)
    (f : Frame) (h1 : prk.ptr ≠ NULL) (h2 : HASH_LEN ≤ prk_len)
    (h3 : wraps prk.ptr prk_len = false) (h4 : info.ptr = NULL → info_len = 0)
    (h5 : wraps info.ptr info_len = false) (hL : 255 * HASH_LEN < L) :
    hkdf_hmacsha512_expand S prk prk_len info info_len output L f =
      some (E_HKDF_LENGTH, { f with state := sodium_memzero f.state,
                                    tmp_block := sodium_memzero f.tmp_block }) := by
  have c2 : ¬ prk_len < HASH_LEN := by omega
  have c4 : ¬ (info.ptr = NULL ∧ info_len ≠ 0) := fun h => h.2 (h4 h.1)
  have hb : expand_body S prk prk_len info info_len output L f = some (E_HKDF_LENGTH, f) := by
    simp only [expand_body, h1, c2, h3, c4, h5, if_false, Bool.false_eq_true]
    rw [if_pos (Or.inr hL)]
  exact expand_of_body S prk info prk_len info_len output L f _ hb

/-- A PRK shorter than `HASH_LEN` stops Expand at its first or second check. -/
theorem expand_short_prk (S : Sodium) (prk info : Buf) (prk_len info_len output L : Nat)
    (f : Frame) (h : prk_len < HASH_LEN) :
    hkdf_hmacsha512_expand S prk prk_len info info_len output L f =
      some (if prk.ptr = NULL then E_HKDF_NULLPTR else E_HKDF_LENGTH,
        { f with state := sodium_memzero f.state, tmp_block := sodium_memzero f.tmp_block }) := by
  have hb : expand_body S prk prk_len info info_len output L f =
      some (if prk.ptr = NULL then E_HKDF_NULLPTR else E_HKDF_LENGTH, f) := by
    simp only [expand_body]
    split_ifs <;> rfl
  exact expand_of_body S prk info prk_len info_len output L f _ hb

/-! ### Validation and the codes of Extract -/

/-- The validation of Extract either stops the body with `NULLPTR`, `LENGTH`
or `OVERFLOW` and the memory it was entered with, or all the arguments are
valid and the body ends with `SUCCESS`, `INIT` or `FAILURE`. -/
theorem extract_body_cases (S : Sodium) (salt ikm : Buf) (salt_len ikm_len prk prk_len : Nat)
    (f : Frame) :
    (∃ c, (c = E_HKDF_NULLPTR ∨ c = E_HKDF_LENGTH ∨ c = E_HKDF_OVERFLOW) ∧
      extract_body S salt salt_len ikm ikm_len prk prk_len f = (c, f)) ∨
    (((salt.ptr = NULL → salt_len = 0) ∧ wraps salt.ptr salt_len = false ∧
      (ikm.ptr = NULL → ikm_len = 0) ∧ wraps ikm.ptr ikm_len = false ∧
      prk ≠ NULL ∧ prk_len = HASH_LEN ∧ wraps prk prk_len = false) ∧
     ((extract_body S salt salt_len ikm ikm_len prk prk_len f).1 = E_HKDF_SUCCESS ∨
      (extract_body S salt salt_len ikm ikm_len prk prk_len f).1 = E_HKDF_INIT ∨
      (extract_body S salt salt_len ikm ikm_len prk prk_len f).1 = E_HKDF_FAILURE)) := by
  by_cases c1 : salt.ptr = NULL ∧ salt_len ≠ 0
  · exact Or.inl ⟨_, Or.inr (Or.inl rfl), by simp [extract_body, c1]⟩
  by_cases c2 : wraps salt.ptr salt_len = true
  · exact Or.inl ⟨_, Or.inr (Or.inr rfl), by simp [extract_body, c1, c2]⟩
  by_cases c3 : ikm.ptr = NULL ∧ ikm_len ≠ 0
  · exact Or.inl ⟨_, Or.inr (Or.inl rfl), by simp [extract_body, c1, c2, c3]⟩
  by_cases c4 : wraps ikm.ptr ikm_len = true
  · exact Or.inl ⟨_, Or.inr (Or.inr rfl), by simp [extract_body, c1, c2, c3, c4]⟩
  by_cases c5 : prk = NULL
  · exact Or.inl ⟨_, Or.inl rfl, by simp [extract_body, c1, c2, c3, c4, c5]⟩
  by_cases c6 : HASH_LEN ≠ prk_len
  · exact Or.inl ⟨_, Or.inr (Or.inl rfl), by simp [extract_body, c1, c2, c3, c4, c5, c6]⟩
  by_cases c7 : wraps prk prk_len = true
  · exact Or.inl ⟨_, Or.inr (Or.inr rfl), by simp [extract_body, c1, c2, c3, c4, c5, c6, c7]⟩
  refine Or.inr ⟨⟨fun h => by_contra fun hn => c1 ⟨h, hn⟩, by simpa using c2,
    fun h => by_contra fun hn => c3 ⟨h, hn⟩, by simpa using c4, c5, (not_not.mp c6).symm,
    by simpa using c7⟩, ?_⟩
  simp only [extract_body, c1, c2, c3, c4, c5, c6, c7, if_false, Bool.false_eq_true]
  split_ifs <;> simp

/-- A call of Extract that returns `NULLPTR`, `LENGTH` or `OVERFLOW` made no
library call and left the output object alone. -/
theorem extract_error_pure (S : Sodium) (salt ikm : Buf) (salt_len ikm_len prk prk_len : Nat)
    (f : Frame)
    (h : (hkdf_hmacsha512_extract S salt salt_len ikm ikm_len prk prk_len f).1 = E_HKDF_NULLPTR ∨
      (hkdf_hmacsha512_extract S salt salt_len ikm ikm_len prk prk_len f).1 = E_HKDF_LENGTH ∨
      (hkdf_hmacsha512_extract S salt salt_len ikm ikm_len prk prk_len f).1 = E_HKDF_OVERFLOW) :
    (hkdf_hmacsha512_extract S salt salt_len ikm ikm_len prk prk_len f).2.trace = f.trace ∧
    (hkdf_hmacsha512_extract S salt salt_len ikm ikm_len prk prk_len f).2.out = f.out := by
  rcases extract_body_cases S salt ikm salt_len ikm_len prk prk_len f with
    ⟨c, -, hb⟩ | ⟨-, hcodes⟩
  · simp [hkdf_hmacsha512_extract, hb]
  · exfalso
    have e : (hkdf_hmacsha512_extract S salt salt_len ikm ikm_len prk prk_len f).1 =
        (extract_body S salt salt_len ikm ikm_len prk prk_len f).1 := rfl
    rw [e] at h
    rcases hcodes with h1 | h1 | h1 <;> rw [h1] at h <;>
      simp [E_HKDF_SUCCESS, E_HKDF_INIT, E_HKDF_FAILURE, E_HKDF_NULLPTR, E_HKDF_LENGTH,
        E_HKDF_OVERFLOW] at h

/-- A call of Expand returns, and if it returns `NULLPTR`, `LENGTH` or
`OVERFLOW` it made no library call and left the output object alone. -/
theorem expand_error_pure (S : Sodium) (prk info : Buf)
    (prk_len info_len output output_len : Nat) (f : Frame) :
    ∃ r, hkdf_hmacsha512_expand S prk prk_len info info_len output output_len f = some r ∧
      (r.1 = E_HKDF_NULLPTR ∨ r.1 = E_HKDF_LENGTH ∨ r.1 = E_HKDF_OVERFLOW →
        r.2.trace = f.trace ∧ r.2.out = f.out) ∧
      (∀ b ∈ r.2.state, b = 0) ∧ (∀ b ∈ r.2.tmp_block, b = 0) := by
  have hz : ∀ (l : Bytes), ∀ b ∈ sodium_memzero l, b = 0 := fun l b hb =>
    List.eq_of_mem_replicate hb
  rcases expand_body_cases S prk info prk_len info_len output output_len f with
    ⟨c, -, h⟩ | ⟨⟨-, -, -, -, -, -, h7, -⟩, h⟩
  · exact ⟨_, expand_of_body S prk info prk_len info_len output output_len f _ h,
      fun _ => ⟨rfl, rfl⟩, hz _, hz _⟩
  · obtain ⟨r, hr, hcodes⟩ :=
      expand_compute_total S prk info prk_len info_len output output_len f h7
    refine ⟨_, expand_of_body S prk info prk_len info_len output output_len f _ (h.trans hr),
      fun hv => ?_, hz _, hz _⟩
    exfalso
    have hv2 : r.1 = E_HKDF_NULLPTR ∨ r.1 = E_HKDF_LENGTH ∨ r.1 = E_HKDF_OVERFLOW := hv
    rcases hcodes with h1 | h1 | h1 <;> rw [h1] at hv2 <;>
      simp [E_HKDF_SUCCESS, E_HKDF_INIT, E_HKDF_FAILURE, E_HKDF_NULLPTR, E_HKDF_LENGTH,
        E_HKDF_OVERFLOW] at hv2

/-! ### The overflow guards -/

theorem wraps_ne_null (p len : Nat) (h : wraps p len = true) : p ≠ NULL := by
  intro h0
  subst h0
  simp [wraps, NULL] at h

/-- Extract on arguments that are not all valid: one of the three precondition
codes, no library call, output object unchanged. -/
theorem extract_rejected (S : Sodium) (salt ikm : Buf) (salt_len ikm_len prk prk_len : Nat)
    (f : Frame)
    (h : ¬ ((salt.ptr = NULL → salt_len = 0) ∧ wraps salt.ptr salt_len = false ∧
      (ikm.ptr = NULL → ikm_len = 0) ∧ wraps ikm.ptr ikm_len = false ∧
      prk ≠ NULL ∧ prk_len = HASH_LEN ∧ wraps prk prk_len = false)) :
    ((hkdf_hmacsha512_extract S salt salt_len ikm ikm_len prk prk_len f).1 = E_HKDF_NULLPTR ∨
      (hkdf_hmacsha512_extract S salt salt_len ikm ikm_len prk prk_len f).1 = E_HKDF_LENGTH ∨
      (hkdf_hmacsha512_extract S salt salt_len ikm ikm_len prk prk_len f).1 = E_HKDF_OVERFLOW) ∧
    (hkdf_hmacsha512_extract S salt salt_len ikm ikm_len prk prk_len f).2.trace = f.trace ∧
    (hkdf_hmacsha512_extract S salt salt_len ikm ikm_len prk prk_len f).2.out = f.out := by
  rcases extract_body_cases S salt ikm salt_len ikm_len prk prk_len f with
    ⟨c, hc, hb⟩ | ⟨hv, -⟩
  · refine ⟨?_, ?_, ?_⟩ <;> simp [hkdf_hmacsha512_extract, hb, hc]
  · exact absurd hv h

/-- Expand on arguments that are not all valid: one of the three precondition
codes, no library call, output object unchanged. -/
theorem expand_rejected (S : Sodium) (prk info : Buf)
    (prk_len info_len output output_len : Nat) (f : Frame)
    (h : ¬ (prk.ptr ≠ NULL ∧ HASH_LEN ≤ prk_len ∧ wraps prk.ptr prk_len = false ∧
      (info.ptr = NULL → info_len = 0) ∧ wraps info.ptr info_len = false ∧
      (output = NULL → output_len = 0) ∧ output_len ≤ 255 * HASH_LEN ∧
      wraps output output_len = false)) :
    ∃ r, hkdf_hmacsha512_expand S prk prk_len info info_len output output_len f = some r ∧
      (r.1 = E_HKDF_NULLPTR ∨ r.1 = E_HKDF_LENGTH ∨ r.1 = E_HKDF_OVERFLOW) ∧
      r.2.trace = f.trace ∧ r.2.out = f.out := by
  rcases expand_body_cases S prk info prk_len info_len output output_len f with
    ⟨c, hc, hb⟩ | ⟨hv, -⟩
  · exact ⟨_, expand_of_body S prk info prk_len info_len output output_len f _ hb, hc, rfl, rfl⟩
  · exact absurd hv h

/-! ### The key of HMAC -/

/-- The empty key and the key of `HASH_LEN` zero bytes are brought to the same
block: 128 zero bytes. -/
theorem hmac_block_key_zero (H : Bytes → Bytes) :
    hmac_block_key H [] = List.replicate SHA512_BLOCK 0 ∧
    hmac_block_key H (List.replicate HASH_LEN 0) = List.replicate SHA512_BLOCK 0 := by
  constructor
  · simp [hmac_block_key, SHA512_BLOCK]
  · simp only [hmac_block_key, SHA512_BLOCK, HASH_LEN, List.length_replicate]
    rw [if_neg (by decide)]
    rw [← List.replicate_add]
    simp

theorem hmacsha512_def_zero_key (H : Bytes → Bytes) (m : Bytes) :
    hmacsha512_def H [] m = hmacsha512_def H (List.replicate HASH_LEN 0) m := by
  simp only [hmacsha512_def, (hmac_block_key_zero H).1, (hmac_block_key_zero H).2]

theorem hmacsha512_def_length (H : Bytes → Bytes) (hH : ∀ x, (H x).length = HASH_LEN)
    (key m : Bytes) : (hmacsha512_def H key m).length = HASH_LEN := by
  simp only [hmacsha512_def, hH]

theorem toyHash_length (m : Bytes) : (toyHash m).length = HASH_LEN := by
  simp [toyHash]

/-! ### The output keying material as a function of its length -/

theorem rfc5869_blocks_add (hmac : Bytes → Bytes → Bytes) (PRK info : Bytes) (n k : Nat) :
    ∃ rest, rfc5869_blocks hmac PRK info (n + k) = rfc5869_blocks hmac PRK info n ++ rest := by
  induction k with
  | zero => exact ⟨[], by simp⟩
  | succ j ih =>
    obtain ⟨rest, h⟩ := ih
    refine ⟨rest ++ rfc5869_T hmac PRK info (n + j + 1), ?_⟩
    rw [← Nat.add_assoc, rfc5869_blocks, h, List.append_assoc]

/-- A shorter output is the beginning of a longer one. -/
theorem rfc5869_okm_take (hmac : Bytes → Bytes → Bytes)
    (hlen : ∀ key m, (hmac key m).length = HASH_LEN) (PRK info : Bytes) (L1 L2 : Nat)
    (h : L1 ≤ L2) :
    (rfc5869_okm hmac PRK info L2).take L1 = rfc5869_okm hmac PRK info L1 := by
  have hn : (L1 + HASH_LEN - 1) / HASH_LEN ≤ (L2 + HASH_LEN - 1) / HASH_LEN :=
    Nat.div_le_div_right (by omega)
  obtain ⟨k, hk⟩ := Nat.exists_eq_add_of_le hn
  obtain ⟨rest, hr⟩ := rfc5869_blocks_add hmac PRK info ((L1 + HASH_LEN - 1) / HASH_LEN) k
  have hl := rfc5869_blocks_length hmac hlen PRK info ((L1 + HASH_LEN - 1) / HASH_LEN)
  have hL1 : L1 ≤ (rfc5869_blocks hmac PRK info ((L1 + HASH_LEN - 1) / HASH_LEN)).length := by
    rw [hl]
    simp only [HASH_LEN]
    omega
  simp only [rfc5869_okm]
  rw [List.take_take, min_eq_left h, hk, hr, List.take_append_of_le_length hL1]

/-- The status and the first `L` output bytes of a successful call, under a
library that computes `hmac`. -/
theorem expand_success_take (S : Sodium) (R : Bytes → Bytes → Bytes → Prop)
    (hmac : Bytes → Bytes → Bytes) (hc : LibComputes S R hmac)
    (prk info : Buf) (prk_len info_len output L : Nat) (f : Frame)
    (h0 : (hkdf_hmacsha512_expand S prk prk_len info info_len output L f).map Prod.fst =
      some E_HKDF_SUCCESS) :
    (hkdf_hmacsha512_expand S prk prk_len info info_len output L f).map
        (fun r => r.2.out.take L) =
      some (rfc5869_okm hmac (prk.data.take prk_len) (info.data.take info_len) L) := by
  obtain ⟨r, hr⟩ := expand_total S prk info prk_len info_len output L f
  rw [hr] at h0 ⊢
  simp only [Option.map_some', Option.some.injEq] at h0 ⊢
  rw [expand_success_out S R hmac hc prk info prk_len info_len output L f r hr h0,
    List.take_left' (rfc5869_okm_length hmac hc.digest_len _ _ L)]

/-! ### The trace only grows -/

theorem block_head_trace (S : Sodium) (prk info : Buf) (prk_len info_len output T i : Nat)
    (f : Frame) :
    ∃ u, (expand_block_head S prk prk_len info info_len output T i f).2.trace = f.trace ++ u := by
  simp only [expand_block_head, call_init, call_update]
  generalize readAt f.out (T - output) (if T = NULL then 0 else HASH_LEN) = d
  split_ifs
  · exact ⟨_, rfl⟩
  · exact ⟨_, by simp only [List.append_assoc]; rfl⟩
  · exact ⟨_, by simp only [List.append_assoc]; rfl⟩
  · exact ⟨_, by simp only [List.append_assoc]; rfl⟩
  · exact ⟨_, by simp only [List.append_assoc]; rfl⟩

theorem loop_pass_trace (S : Sodium) (prk info : Buf) (prk_len info_len output T i : Nat)
    (f : Frame) :
    ∃ u, (expand_loop_pass S prk prk_len info info_len output T i f).2.trace = f.trace ++ u := by
  obtain ⟨u, hu⟩ := block_head_trace S prk info prk_len info_len output T i f
  by_cases hh : (expand_block_head S prk prk_len info info_len output T i f).1 = 0
  · rw [loop_pass_snd S prk info prk_len info_len output T i f hh]
    exact ⟨u ++ [LibCall.hmacsha512_final], by simp [call_final, hu]⟩
  · rw [loop_pass_head S prk info prk_len info_len output T i f hh]
    exact ⟨u, hu⟩

theorem expand_last_trace (S : Sodium) (prk info : Buf)
    (prk_len info_len output output_len N i T : Nat) (f : Frame) :
    ∃ u, (expand_last S prk prk_len info info_len output output_len N i T f).2.trace =
      f.trace ++ u := by
  obtain ⟨u, hu⟩ := block_head_trace S prk info prk_len info_len output T i f
  by_cases hh : (expand_block_head S prk prk_len info info_len output T i f).1 = 0
  · by_cases hf : (call_final S
        (expand_block_head S prk prk_len info info_len output T i f).2).1 = 0
    · rw [(expand_last_copy S prk info prk_len info_len output output_len N i T f hh hf).2.2,
        hu]
      exact ⟨u ++ [LibCall.hmacsha512_final], by simp⟩
    · rw [expand_last_final S prk info prk_len info_len output output_len N i T f hh hf]
      exact ⟨u ++ [LibCall.hmacsha512_final], by simp [call_final, hu]⟩
  · rw [expand_last_head S prk info prk_len info_len output output_len N i T f hh]
    exact ⟨u, hu⟩

/-- Once the validation has passed, the first library call is `sodium_init`. -/
theorem expand_compute_trace (S : Sodium) (prk info : Buf)
    (prk_len info_len output L : Nat) (f : Frame) (hL : L ≤ 255 * HASH_LEN) :
    ∃ r u, expand_compute S prk prk_len info info_len output L f = some r ∧
      r.2.trace = f.trace ++ LibCall.sodium_init :: u := by
  rcases expand_compute_cases S prk info prk_len info_len output L f
    (fun _ g => ∃ u, g.trace = f.trace ++ LibCall.sodium_init :: u) hL
    (fun i g _ hP _ => by
      obtain ⟨u, hu⟩ := hP
      obtain ⟨v, hv⟩ := loop_pass_trace S prk info prk_len info_len output (T_at output i) i g
      exact ⟨u ++ v, by rw [hv, hu]; simp⟩)
    ⟨[], rfl⟩ with
    ⟨-, h⟩ | ⟨-, -, h⟩ | ⟨-, j, fj, -, ⟨u, hu⟩, -, h⟩ | ⟨-, M, f1, -, ⟨u, hu⟩, h⟩
  · exact ⟨_, [], h, rfl⟩
  · exact ⟨_, [], h, rfl⟩
  · obtain ⟨v, hv⟩ := loop_pass_trace S prk info prk_len info_len output (T_at output j) j fj
    exact ⟨_, u ++ v, h, by rw [hv, hu]; simp⟩
  · obtain ⟨v, hv⟩ := expand_last_trace S prk info prk_len info_len output L (M + 1) M
      (T_at output M) f1
    exact ⟨_, u ++ v, h, by rw [hv, hu]; simp⟩

theorem failingAt_computes (hmac : Bytes → Bytes → Bytes)
    (hlen : ∀ key m, (hmac key m).length = HASH_LEN) (c : Nat) :
    LibComputes (failingAt hmac c) refRep hmac := by
  refine ⟨fun _ _ key _ => ?_, fun _ st key m d h _ => ?_, fun _ st key m h _ => ?_, hlen⟩
  · simp [failingAt, refRep]
  · simp only [refRep] at h
    simp [failingAt, refRep, h]
  · simp only [refRep] at h
    simp [failingAt, h]

/-! ### What lies beyond the requested length -/

/-- A store that ends at or before offset `L` inside the object keeps the
length of the object and everything from offset `L` on. -/
theorem writeAt_frame (buf data : Bytes) (off L : Nat) (h1 : off + data.length ≤ L)
    (h2 : L ≤ buf.length) :
    (writeAt buf off data).length = buf.length ∧ (writeAt buf off data).drop L = buf.drop L := by
  have hlen : (buf.take off ++ data).length = off + data.length := by
    simp only [List.length_append, List.length_take]
    omega
  constructor
  · simp only [writeAt, List.length_append, List.length_take, List.length_drop]
    omega
  · simp only [writeAt]
    rw [List.drop_append_eq_append_drop, hlen, List.drop_of_length_le (by omega),
      List.nil_append, List.drop_drop]
    congr 1
    omega

theorem loop_pass_frame (S : Sodium)
    (hfin : ∀ n st, (S.crypto_auth_hmacsha512_final n st).2.2.length = HASH_LEN)
    (prk info : Buf) (prk_len info_len output T i L : Nat) (g : Frame)
    (h1 : (i + 1) * HASH_LEN ≤ L) (h2 : L ≤ g.out.length) :
    (expand_loop_pass S prk prk_len info info_len output T i g).2.out.length = g.out.length ∧
    (expand_loop_pass S prk prk_len info info_len output T i g).2.out.drop L = g.out.drop L := by
  obtain ⟨ho, -⟩ := block_head_frame S prk info prk_len info_len output T i g
  by_cases hh : (expand_block_head S prk prk_len info info_len output T i g).1 = 0
  · rw [loop_pass_snd S prk info prk_len info_len output T i g hh]
    show (writeAt (expand_block_head S prk prk_len info info_len output T i g).2.out
        (i * HASH_LEN) (S.crypto_auth_hmacsha512_final _ _).2.2).length = _ ∧
      (writeAt (expand_block_head S prk prk_len info info_len output T i g).2.out
        (i * HASH_LEN) (S.crypto_auth_hmacsha512_final _ _).2.2).drop L = _
    rw [ho]
    exact writeAt_frame _ _ _ _ (by rw [hfin]; simp only [HASH_LEN] at h1 ⊢; omega) h2
  · rw [loop_pass_head S prk info prk_len info_len output T i g hh, ho]
    exact ⟨rfl, rfl⟩

theorem expand_last_frame (S : Sodium)
    (hfin : ∀ n st, (S.crypto_auth_hmacsha512_final n st).2.2.length = HASH_LEN)
    (prk info : Buf) (prk_len info_len output T L M : Nat) (g : Frame)
    (hL : L ≤ 255 * HASH_LEN) (hM : M + 1 = (L + HASH_LEN - 1) / HASH_LEN)
    (h2 : L ≤ g.out.length) :
    (expand_last S prk prk_len info info_len output L (M + 1) M T g).2.out.length =
      g.out.length ∧
    (expand_last S prk prk_len info info_len output L (M + 1) M T g).2.out.drop L =
      g.out.drop L := by
  obtain ⟨ho, -⟩ := block_head_frame S prk info prk_len info_len output T M g
  have hM255 : M + 1 ≤ 255 := by
    have := block_count_le L hL
    omega
  by_cases hh : (expand_block_head S prk prk_len info info_len output T M g).1 = 0
  · by_cases hf : (call_final S
        (expand_block_head S prk prk_len info info_len output T M g).2).1 = 0
    · rw [(expand_last_copy S prk info prk_len info_len output L (M + 1) M T g hh hf).2.1, ho,
        last_offset (M + 1) (by omega) hM255, Nat.add_sub_cancel, writeAt_zero]
      have hd : (call_final S
          (expand_block_head S prk prk_len info info_len output T M g).2).2.2.length =
          HASH_LEN := hfin _ _
      have hk : (if 0 = L % HASH_LEN then HASH_LEN else L % HASH_LEN) = L - M * HASH_LEN := by
        simp only [HASH_LEN] at hM ⊢
        split_ifs <;> omega
      have hk2 : L - M * HASH_LEN ≤ HASH_LEN := by
        simp only [HASH_LEN] at hM ⊢
        omega
      have hk3 : M * HASH_LEN ≤ L := by
        simp only [HASH_LEN] at hM ⊢
        omega
      rw [hk, List.take_append_of_le_length (by rw [hd]; exact hk2)]
      exact writeAt_frame _ _ _ _
        (by rw [List.length_take, hd, min_eq_left hk2]; omega) h2
    · rw [expand_last_final S prk info prk_len info_len output L (M + 1) M T g hh hf]
      show (expand_block_head S prk prk_len info info_len output T M g).2.out.length = _ ∧
        (expand_block_head S prk prk_len info info_len output T M g).2.out.drop L = _
      rw [ho]
      exact ⟨rfl, rfl⟩
  · rw [expand_last_head S prk info prk_len info_len output L (M + 1) M T g hh, ho]
    exact ⟨rfl, rfl⟩

/-- Whatever the return codes of the library, the computation keeps the
length of the output object and its bytes from offset `L` on. -/
theorem expand_compute_frame (S : Sodium)
    (hfin : ∀ n st, (S.crypto_auth_hmacsha512_final n st).2.2.length = HASH_LEN)
    (prk info : Buf) (prk_len info_len output L : Nat) (f : Frame)
    (hL : L ≤ 255 * HASH_LEN) (h2 : L ≤ f.out.length) :
    ∃ r, expand_compute S prk prk_len info info_len output L f = some r ∧
      r.2.out.length = f.out.length ∧ r.2.out.drop L = f.out.drop L := by
  have harith : ∀ j, j + 1 < (L + HASH_LEN - 1) / HASH_LEN → (j + 1) * HASH_LEN ≤ L := by
    intro j hj
    simp only [HASH_LEN] at hj ⊢
    omega
  rcases expand_compute_cases S prk info prk_len info_len output L f
    (fun _ g => g.out.length = f.out.length ∧ g.out.drop L = f.out.drop L) hL
    (fun i g hi hP _ => by
      obtain ⟨a, b⟩ := loop_pass_frame S hfin prk info prk_len info_len output (T_at output i) i
        L g (harith i hi) (by rw [hP.1]; exact h2)
      exact ⟨a.trans hP.1, b.trans hP.2⟩)
    ⟨rfl, rfl⟩ with
    ⟨-, h⟩ | ⟨-, -, h⟩ | ⟨-, j, fj, hj, hP, -, h⟩ | ⟨-, M, f1, hM, hP, h⟩
  · exact ⟨_, h, rfl, rfl⟩
  · exact ⟨_, h, rfl, rfl⟩
  · obtain ⟨a, b⟩ := loop_pass_frame S hfin prk info prk_len info_len output (T_at output j) j
      L fj (harith j hj) (by rw [hP.1]; exact h2)
    exact ⟨_, h, a.trans hP.1, b.trans hP.2⟩
  · obtain ⟨a, b⟩ := expand_last_frame S hfin prk info prk_len info_len output (T_at output M)
      L M f1 hL hM (by rw [hP.1]; exact h2)
    exact ⟨_, h, a.trans hP.1, b.trans hP.2⟩

/-! ### The number of passes -/

theorem loop_pass_succeeds (S : Sodium) (hs : LibSucceeds S) (prk info : Buf)
    (prk_len info_len output T i : Nat) (f : Frame) :
    (expand_loop_pass S prk prk_len info info_len output T i f).1 = 0 := by
  rw [loop_pass_fst S prk info prk_len info_len output T i f
    (block_head_succeeds S hs prk info prk_len info_len output T i f)]
  simp [call_final, hs.final_rc, E_HKDF_SUCCESS]

/-- Under a library whose calls succeed the loop is left through its condition,
with `i = N - 1`. -/
theorem expand_loop_runs (S : Sodium) (hs : LibSucceeds S) (prk info : Buf)
    (prk_len info_len output N : Nat) (f : Frame) (h1 : 1 ≤ N) (h2 : N ≤ 255) :
    ∃ f1, expand_loop S prk prk_len info info_len output N N 0 NULL f =
      some (LoopExit.done (N - 1) (T_at output (N - 1)) f1) := by
  have hsub : subSz N 1 = N - 1 := subSz_one N h1 (by simp only [SIZE_MOD]; omega)
  have hcases := expand_loop_cases S prk info prk_len info_len output N (fun _ _ => True)
    (fun _ _ _ _ _ => trivial) N 0 f (Nat.zero_le _) (by rw [hsub]; omega) trivial
  have hT0 : T_at output 0 = NULL := rfl
  rw [hsub, hT0] at hcases
  rcases hcases with ⟨f1, h, -⟩ | ⟨j, fj, -, -, -, hne, -⟩
  · exact ⟨f1, h⟩
  · exact absurd (loop_pass_succeeds S hs prk info prk_len info_len output _ j fj) hne

/-! ### A library that fails at a given call -/

theorem failingAt_fails (hmac : Bytes → Bytes → Bytes) (c : Nat) :
    FailsFirstAt (failingAt hmac c) c := by
  refine ⟨fun n _ _ h => ?_, fun n _ _ h => ?_, fun n _ h => ?_, fun _ _ => ?_, fun _ _ => ?_,
    fun _ => ?_⟩ <;> simp [failingAt] <;> omega

/-- The four calls that open a block all return `0` when they are numbered
below the failing call. -/
theorem block_head_before (S : Sodium) (c : Nat) (hF : FailsFirstAt S c) (prk info : Buf)
    (prk_len info_len output T i : Nat) (g : Frame) (h : g.trace.length + 4 ≤ c) :
    (expand_block_head S prk prk_len info info_len output T i g).1 = 0 ∧
    (expand_block_head S prk prk_len info info_len output T i g).2.trace.length =
      g.trace.length + 4 := by
  have i0 : ∀ st key, (S.crypto_auth_hmacsha512_init g.trace.length st key).1 = 0 :=
    fun st key => hF.init_ok _ st key (by omega)
  have u1 : ∀ st d, (S.crypto_auth_hmacsha512_update (g.trace.length + 1) st d).1 = 0 :=
    fun st d => hF.update_ok _ st d (by omega)
  have u2 : ∀ st d, (S.crypto_auth_hmacsha512_update (g.trace.length + 1 + 1) st d).1 = 0 :=
    fun st d => hF.update_ok _ st d (by omega)
  have u3 : ∀ st d, (S.crypto_auth_hmacsha512_update (g.trace.length + 1 + 1 + 1) st d).1 = 0 :=
    fun st d => hF.update_ok _ st d (by omega)
  simp only [expand_block_head, call_init, call_update, List.length_append,
    List.length_singleton, i0, u1, u2, u3, ne_eq, not_true_eq_false, if_false]
  exact ⟨rfl, trivial⟩

/-- The calls that open a block, when the failing call is the one numbered `s`
among them: `INIT` if it is the init, `FAILURE` if it is an update, and the
failing call is the last call made. -/
theorem block_head_fails (S : Sodium) (c : Nat) (hF : FailsFirstAt S c) (prk info : Buf)
    (prk_len info_len output T i : Nat) (g : Frame) (s : Nat) (hs : s < 4)
    (hc : c = g.trace.length + s) :
    (expand_block_head S prk prk_len info info_len output T i g).1 =
      (if s = 0 then E_HKDF_INIT else E_HKDF_FAILURE) ∧
    (expand_block_head S prk prk_len info info_len output T i g).2.trace.length = c + 1 := by
  have i0 : ∀ st key, 0 < s → (S.crypto_auth_hmacsha512_init g.trace.length st key).1 = 0 :=
    fun st key h => hF.init_ok _ st key (by omega)
  have u1 : ∀ st d, 1 < s → (S.crypto_auth_hmacsha512_update (g.trace.length + 1) st d).1 = 0 :=
    fun st d h => hF.update_ok _ st d (by omega)
  have u2 : ∀ st d, 2 < s →
      (S.crypto_auth_hmacsha512_update (g.trace.length + 1 + 1) st d).1 = 0 :=
    fun st d h => hF.update_ok _ st d (by omega)
  have fi := hF.init_fails
  have fu := hF.update_fails
  simp only [expand_block_head, call_init, call_update, List.length_append,
    List.length_singleton]
  generalize readAt g.out (T - output) (if T = NULL then 0 else HASH_LEN) = d
  obtain rfl | rfl | rfl | rfl : s = 0 ∨ s = 1 ∨ s = 2 ∨ s = 3 := by omega
  · have e : c = g.trace.length := by omega
    subst e
    simp [fi]
  · have e : c = g.trace.length + 1 := by omega
    subst e
    simp [i0, fu]
  · have e : c = g.trace.length + 1 + 1 := by omega
    subst e
    simp [i0, u1, fu]
  · have e : c = g.trace.length + 1 + 1 + 1 := by omega
    subst e
    simp [i0, u1, u2, fu]

theorem writeAt_take (buf data : Bytes) (off : Nat) (h : off ≤ buf.length) :
    (writeAt buf off data).take off = buf.take off := by
  have hl : (buf.take off).length = off := by
    rw [List.length_take]
    omega
  simp only [writeAt, List.append_assoc]
  rw [List.take_left' hl]

theorem loop_pass_before (S : Sodium) (c : Nat) (hF : FailsFirstAt S c) (prk info : Buf)
    (prk_len info_len output T i : Nat) (g : Frame) (h : g.trace.length + 5 ≤ c) :
    (expand_loop_pass S prk prk_len info info_len output T i g).1 = 0 := by
  obtain ⟨h0, hl⟩ := block_head_before S c hF prk info prk_len info_len output T i g (by omega)
  rw [loop_pass_fst S prk info prk_len info_len output T i g h0]
  have : (call_final S (expand_block_head S prk prk_len info info_len output T i g).2).1 = 0 :=
    hF.final_ok _ _ (by rw [hl]; omega)
  simp [this, E_HKDF_SUCCESS]

/-- A pass of the loop in which the failing call is the one numbered `s` among
its five calls: the code is `INIT` for the init and `FAILURE` otherwise, the
failing call is the last call made, and the blocks stored before this pass are
not touched. -/
theorem loop_pass_fails (S : Sodium) (c : Nat) (hF : FailsFirstAt S c) (prk info : Buf)
    (prk_len info_len output T i : Nat) (g : Frame) (s : Nat) (hs : s < 5)
    (hc : c = g.trace.length + s) (hbuf : i * HASH_LEN ≤ g.out.length) :
    (expand_loop_pass S prk prk_len info info_len output T i g).1 =
      (if s = 0 then E_HKDF_INIT else E_HKDF_FAILURE) ∧
    (expand_loop_pass S prk prk_len info info_len output T i g).2.trace.length = c + 1 ∧
    (expand_loop_pass S prk prk_len info info_len output T i g).2.out.take (i * HASH_LEN) =
      g.out.take (i * HASH_LEN) := by
  obtain ⟨ho, -⟩ := block_head_frame S prk info prk_len info_len output T i g
  by_cases h4 : s < 4
  · obtain ⟨h1, h2⟩ := block_head_fails S c hF prk info prk_len info_len output T i g s h4 hc
    have hne : (expand_block_head S prk prk_len info info_len output T i g).1 ≠ 0 := by
      rw [h1]
      split_ifs <;> decide
    rw [loop_pass_head S prk info prk_len info_len output T i g hne, ho]
    exact ⟨h1, h2, rfl⟩
  · have e : s = 4 := by omega
    subst e
    obtain ⟨h0, hl⟩ := block_head_before S c hF prk info prk_len info_len output T i g
      (by omega)
    have hf : (call_final S
        (expand_block_head S prk prk_len info info_len output T i g).2).1 ≠ 0 := by
      show (S.crypto_auth_hmacsha512_final _ _).1 ≠ 0
      rw [hl, ← hc]
      exact hF.final_fails _
    rw [loop_pass_fst S prk info prk_len info_len output T i g h0,
      loop_pass_snd S prk info prk_len info_len output T i g h0, if_pos hf]
    refine ⟨by simp, ?_, ?_⟩
    · show ((expand_block_head S prk prk_len info info_len output T i g).2.trace ++
        [LibCall.hmacsha512_final]).length = c + 1
      rw [List.length_append, hl, hc]
      rfl
    · show (writeAt (expand_block_head S prk prk_len info info_len output T i g).2.out
        (i * HASH_LEN) _).take (i * HASH_LEN) = _
      rw [ho]
      exact writeAt_take _ _ _ hbuf

/-- The last block when the failing call is the one numbered `s` among its
five calls: the code is `INIT` for the init and `FAILURE` otherwise, the
failing call is the last call made, and the output object is not touched. -/
theorem expand_last_fails (S : Sodium) (c : Nat) (hF : FailsFirstAt S c) (prk info : Buf)
    (prk_len info_len output output_len N T i : Nat) (g : Frame) (s : Nat) (hs : s < 5)
    (hc : c = g.trace.length + s) :
    (expand_last S prk prk_len info info_len output output_len N i T g).1 =
      (if s = 0 then E_HKDF_INIT else E_HKDF_FAILURE) ∧
    (expand_last S prk prk_len info info_len output output_len N i T g).2.trace.length =
      c + 1 ∧
    (expand_last S prk prk_len info info_len output output_len N i T g).2.out = g.out := by
  obtain ⟨ho, -⟩ := block_head_frame S prk info prk_len info_len output T i g
  by_cases h4 : s < 4
  · obtain ⟨h1, h2⟩ := block_head_fails S c hF prk info prk_len info_len output T i g s h4 hc
    have hne : (expand_block_head S prk prk_len info info_len output T i g).1 ≠ 0 := by
      rw [h1]
      split_ifs <;> decide
    rw [expand_last_head S prk info prk_len info_len output output_len N i T g hne]
    exact ⟨h1, h2, ho⟩
  · have e : s = 4 := by omega
    subst e
    obtain ⟨h0, hl⟩ := block_head_before S c hF prk info prk_len info_len output T i g
      (by omega)
    have hf : (call_final S
        (expand_block_head S prk prk_len info info_len output T i g).2).1 ≠ 0 := by
      show (S.crypto_auth_hmacsha512_final _ _).1 ≠ 0
      rw [hl, ← hc]
      exact hF.final_fails _
    rw [expand_last_final S prk info prk_len info_len output output_len N i T g h0 hf]
    refine ⟨by simp, ?_, ho⟩
    show ((expand_block_head S prk prk_len info info_len output T i g).2.trace ++
      [LibCall.hmacsha512_final]).length = c + 1
    rw [List.length_append, hl, hc]
    rfl

theorem LoopInv_facts (hmac : Bytes → Bytes → Bytes)
    (hlen : ∀ key m, (hmac key m).length = HASH_LEN) (key info orig : Bytes)
    (t0 : List LibCall) (tmp : Bytes) (i : Nat) (g : Frame)
    (h : LoopInv hmac key info orig t0 tmp i g) :
    g.trace.length = t0.length + 1 + 5 * i ∧ i * HASH_LEN ≤ g.out.length ∧
    g.out.take (i * HASH_LEN) = rfc5869_blocks hmac key info i := by
  obtain ⟨ho, ht, -⟩ := h
  have hl := rfc5869_blocks_length hmac hlen key info i
  refine ⟨?_, ?_, ?_⟩
  · rw [ht]
    simp only [List.length_append, List.length_singleton, expand_calls_length]
  · rw [ho, List.length_append, hl]
    omega
  · rw [ho, List.take_left' hl]

/-! ## The claims -/

/-- C1: `hkdf_hmacsha512_expand` computes HKDF-Expand of RFC 5869.  For every
non-null PRK with `prk_len ≥ 64`, every info (a null pointer only with length
0), every `L ≤ 255 * 64` and a non-null output pointer, when no pointer+length
pair wraps and the library succeeds and computes `hmac`, the call returns
`E_HKDF_SUCCESS` and `output[0..L)` is the first `L` bytes of
`T(1) || ... || T(N)`, `N = ceil(L / 64)`, `T(0)` empty and
`T(i) = hmac PRK (T(i-1) || info || [i])` keyed with all `prk_len` bytes. -/
theorem expand_computes_rfc5869 (S : Sodium) (R : Bytes → Bytes → Bytes → Prop)
    (hmac : Bytes → Bytes → Bytes) (hs : LibSucceeds S) (hc : LibComputes S R hmac)
    (prk info : Buf) (prk_len info_len output L : Nat) (f : Frame)
    (hprk : prk.ptr ≠ NULL) (hlen : HASH_LEN ≤ prk_len) (hw1 : wraps prk.ptr prk_len = false)
    (hinfo : info.ptr = NULL → info_len = 0) (hw2 : wraps info.ptr info_len = false)
    (hout : output ≠ NULL) (hL : L ≤ 255 * HASH_LEN) (hw3 : wraps output L = false) :
    ∃ r, hkdf_hmacsha512_expand S prk prk_len info info_len output L f = some r ∧
      r.1 = E_HKDF_SUCCESS ∧
      r.2.out.take L =
        (rfc5869_blocks hmac (prk.data.take prk_len) (info.data.take info_len)
          ((L + 63) / 64)).take L ∧
      (r.2.out.take L).length = L := by
  obtain ⟨r, hr, h0, ho, -⟩ := expand_ok S R hmac hs hc prk info prk_len info_len output L f
    hprk hlen hw1 hinfo hw2 (fun h => absurd h hout) hL hw3
  have hl := rfc5869_okm_length hmac hc.digest_len (prk.data.take prk_len)
    (info.data.take info_len) L
  have ht : r.2.out.take L =
      rfc5869_okm hmac (prk.data.take prk_len) (info.data.take info_len) L := by
    rw [ho, List.take_left' hl]
  exact ⟨r, hr, h0, ht, by rw [ht, hl]⟩

/-- C1, at `L = 82`: two blocks, and the output is `T(1)` followed by the first
18 bytes of `T(2)`. -/
theorem expand_computes_rfc5869_witness :
    (82 + 63) / 64 = 2 ∧
    (rfc5869_blocks toyHmac (List.replicate 64 1) [1, 2, 3] 2).take 82 =
      rfc5869_T toyHmac (List.replicate 64 1) [1, 2, 3] 1 ++
        (rfc5869_T toyHmac (List.replicate 64 1) [1, 2, 3] 2).take 18 ∧
    ∃ r, hkdf_hmacsha512_expand (refSodium toyHmac) ⟨1000, List.replicate 64 1⟩ 64
        ⟨2000, [1, 2, 3]⟩ 3 3000 82 demoFrame = some r ∧
      r.1 = E_HKDF_SUCCESS ∧
      r.2.out.take 82 =
        (rfc5869_blocks toyHmac ((List.replicate 64 1).take 64) ([1, 2, 3].take 3)
          ((82 + 63) / 64)).take 82 ∧
      (r.2.out.take 82).length = 82 :=
  ⟨by decide, by decide,
    expand_computes_rfc5869 (refSodium toyHmac) refRep toyHmac (refSodium_succeeds toyHmac)
      (refSodium_computes toyHmac toyHmac_length) ⟨1000, List.replicate 64 1⟩ ⟨2000, [1, 2, 3]⟩
      64 3 3000 82 demoFrame (by decide) (by decide) (by decide) (by decide) (by decide)
      (by decide) (by decide) (by decide)⟩

/-- C2: `hkdf_hmacsha512_extract` computes HKDF-Extract.  For every salt and
IKM (a null pointer only with length 0), a non-null output pointer with
`prk_len = 64`, no wrapping pointer+length pair and a library that succeeds
and computes `hmac`, the call returns `E_HKDF_SUCCESS` and writes exactly the
64 bytes `hmac (salt[0..salt_len)) (ikm[0..ikm_len))` at the start of the
output object: the rest of the object and its length are unchanged. -/
theorem extract_computes_hmac (S : Sodium) (R : Bytes → Bytes → Bytes → Prop)
    (hmac : Bytes → Bytes → Bytes) (hs : LibSucceeds S) (hc : LibComputes S R hmac)
    (salt ikm : Buf) (salt_len ikm_len prk : Nat) (f : Frame)
    (hsalt : salt.ptr = NULL → salt_len = 0) (hikm : ikm.ptr = NULL → ikm_len = 0)
    (hprk : prk ≠ NULL) (hw1 : wraps salt.ptr salt_len = false)
    (hw2 : wraps ikm.ptr ikm_len = false) (hw3 : wraps prk HASH_LEN = false)
    (hbuf : HASH_LEN ≤ f.out.length) :
    (hkdf_hmacsha512_extract S salt salt_len ikm ikm_len prk HASH_LEN f).1 = E_HKDF_SUCCESS ∧
    (hkdf_hmacsha512_extract S salt salt_len ikm ikm_len prk HASH_LEN f).2.out.take 64 =
      hmac (salt.data.take salt_len) (ikm.data.take ikm_len) ∧
    (hmac (salt.data.take salt_len) (ikm.data.take ikm_len)).length = 64 ∧
    (hkdf_hmacsha512_extract S salt salt_len ikm ikm_len prk HASH_LEN f).2.out.drop 64 =
      f.out.drop 64 ∧
    (hkdf_hmacsha512_extract S salt salt_len ikm ikm_len prk HASH_LEN f).2.out.length =
      f.out.length := by
  obtain ⟨h1, h2⟩ := extract_ok S R hmac hs hc salt ikm salt_len ikm_len prk f hsalt hikm hprk
    hw1 hw2 hw3
  have hl : (hmac (salt.data.take salt_len) (ikm.data.take ikm_len)).length = 64 :=
    hc.digest_len _ _
  have hb : 64 ≤ f.out.length := hbuf
  refine ⟨h1, ?_, hl, ?_, ?_⟩
  · rw [h2, List.take_left' hl]
  · rw [h2, List.drop_left' hl]; rfl
  · rw [h2, List.length_append, hl, List.length_drop]
    simp only [HASH_LEN]
    omega

/-- C2, at a concrete input: a null salt of length 0 and a 3-byte IKM. -/
theorem extract_computes_hmac_witness :
    (hkdf_hmacsha512_extract (refSodium toyHmac) ⟨0, []⟩ 0 ⟨2000, [1, 2, 3]⟩ 3 3000
        HASH_LEN demoFrame).1 = E_HKDF_SUCCESS ∧
    (hkdf_hmacsha512_extract (refSodium toyHmac) ⟨0, []⟩ 0 ⟨2000, [1, 2, 3]⟩ 3 3000
        HASH_LEN demoFrame).2.out.take 64 = toyHmac [] [1, 2, 3] ∧
    (toyHmac [] [1, 2, 3]).length = 64 ∧
    (hkdf_hmacsha512_extract (refSodium toyHmac) ⟨0, []⟩ 0 ⟨2000, [1, 2, 3]⟩ 3 3000
        HASH_LEN demoFrame).2.out.drop 64 = demoFrame.out.drop 64 ∧
    (hkdf_hmacsha512_extract (refSodium toyHmac) ⟨0, []⟩ 0 ⟨2000, [1, 2, 3]⟩ 3 3000
        HASH_LEN demoFrame).2.out.length = demoFrame.out.length :=
  extract_computes_hmac (refSodium toyHmac) refRep toyHmac (refSodium_succeeds toyHmac)
    (refSodium_computes toyHmac toyHmac_length) ⟨0, []⟩ ⟨2000, [1, 2, 3]⟩ 0 3 3000 demoFrame
    (by decide) (by decide) (by decide) (by decide) (by decide) (by decide) (by decide)

/-- C3: the validation of `hkdf_hmacsha512_extract` is a fixed-order
first-failure decision.  For every input, when one of the seven conditions
holds the call returns the status of the first one that does, in the listed
order, and makes no library call; when none holds the call goes on to the
library (its first call is recorded). -/
theorem extract_validation_order (S : Sodium) (salt ikm : Buf)
    (salt_len ikm_len prk prk_len : Nat) (f : Frame) :
    match first_failure (extract_checks salt.ptr salt_len ikm.ptr ikm_len prk prk_len) with
    | some c =>
      (hkdf_hmacsha512_extract S salt salt_len ikm ikm_len prk prk_len f).1 = c ∧
      (hkdf_hmacsha512_extract S salt salt_len ikm ikm_len prk prk_len f).2.trace = f.trace
    | none =>
      (hkdf_hmacsha512_extract S salt salt_len ikm ikm_len prk prk_len f).2.trace.take
        (f.trace.length + 1) = f.trace ++ [LibCall.sodium_init] := by
  have hpre : ∀ (t u : List LibCall), (t ++ LibCall.sodium_init :: u).take (t.length + 1) =
      t ++ [LibCall.sodium_init] := by
    intro t u
    rw [List.take_append_eq_append_take]
    simp
  have hw : ∀ p l : Nat, decide ((p + l) % 2 ^ 64 < p) = wraps p l := fun _ _ => rfl
  simp only [extract_checks, hw]
  by_cases c1 : salt.ptr = 0 ∧ salt_len ≠ 0
  · simp [first_failure, c1, hkdf_hmacsha512_extract, extract_body, NULL, E_HKDF_LENGTH]
  by_cases c2 : wraps salt.ptr salt_len = true
  · simp [first_failure, c1, c2, hkdf_hmacsha512_extract, extract_body, NULL,
      E_HKDF_OVERFLOW]
  by_cases c3 : ikm.ptr = 0 ∧ ikm_len ≠ 0
  · simp [first_failure, c1, c2, c3, hkdf_hmacsha512_extract, extract_body,
      NULL, E_HKDF_LENGTH]
  by_cases c4 : wraps ikm.ptr ikm_len = true
  · simp [first_failure, c1, c2, c3, c4, hkdf_hmacsha512_extract,
      extract_body, NULL, E_HKDF_OVERFLOW]
  by_cases c5 : prk = 0
  · simp [first_failure, c1, c2, c3, c4, c5, hkdf_hmacsha512_extract,
      extract_body, NULL, E_HKDF_NULLPTR]
  by_cases c6 : prk_len ≠ 64
  · have c6' : ¬ (64 = prk_len) := fun h => c6 h.symm
    simp [first_failure, c1, c2, c3, c4, c5, c6, c6', hkdf_hmacsha512_extract,
      extract_body, NULL, E_HKDF_LENGTH, HASH_LEN]
  have c6' : prk_len = 64 := not_not.mp c6
  subst c6'
  by_cases c7 : wraps prk 64 = true
  · simp [first_failure, c1, c2, c3, c4, c5, c7, hkdf_hmacsha512_extract,
      extract_body, NULL, E_HKDF_OVERFLOW, HASH_LEN]
  simp only [first_failure, c1, c2, c3, c4, c5, c7, hkdf_hmacsha512_extract,
    extract_body, NULL, HASH_LEN, call_sodium_init, call_init,
    call_update, call_final, List.find?, decide_False, ne_eq, not_true_eq_false,
    Option.map_none', if_false, not_false_eq_true, Bool.false_eq_true]
  split_ifs <;> simp [hpre]

/-- C4, as stated, fails: with a valid PRK, a valid info and a non-null,
non-wrapping output, `output_len = 255 * 64` does not return `SUCCESS` when
`sodium_init` fails; the call returns `E_HKDF_INIT`. -/
theorem expand_limit_unconditional_fails :
    (hkdf_hmacsha512_expand failingBoot ⟨1000, List.replicate 64 1⟩ 64 ⟨0, []⟩ 0 3000 16320
      wideFrame).map Prod.fst = some E_HKDF_INIT ∧ E_HKDF_INIT ≠ E_HKDF_SUCCESS := by
  decide

/-- C4, amended: the output-length limit of Expand is exactly
`255 * 64 = 16320`.  With a valid PRK, a valid info and a non-null output
pointer, `output_len = 16320` (where the code computes `N = 255`) returns
`SUCCESS` provided the output does not wrap and the library calls succeed, and
every `output_len > 16320` returns `LENGTH` whatever the library does, without
any library call and with the output object unchanged. -/
theorem expand_length_limit (S : Sodium) (prk info : Buf) (prk_len info_len output : Nat)
    (f : Frame) (hprk : prk.ptr ≠ NULL) (hlen : HASH_LEN ≤ prk_len)
    (hw1 : wraps prk.ptr prk_len = false) (hinfo : info.ptr = NULL → info_len = 0)
    (hw2 : wraps info.ptr info_len = false) (hout : output ≠ NULL) :
    (LibSucceeds S → wraps output 16320 = false →
      ∃ r, hkdf_hmacsha512_expand S prk prk_len info info_len output 16320 f = some r ∧
        r.1 = E_HKDF_SUCCESS) ∧
    subSz (addSz 16320 HASH_LEN) 1 / HASH_LEN = 255 ∧
    (∀ L, 16320 < L →
      ∃ r, hkdf_hmacsha512_expand S prk prk_len info info_len output L f = some r ∧
        r.1 = E_HKDF_LENGTH ∧ r.2.trace = f.trace ∧ r.2.out = f.out) := by
  refine ⟨fun hs hw3 => ?_, ?_, fun L hL => ?_⟩
  · exact expand_succeeds S hs prk info prk_len info_len output 16320 f hprk hlen hw1 hinfo hw2
      (fun h => absurd h hout) (by simp [HASH_LEN]) hw3
  · rw [block_count_eq 16320 (by simp [HASH_LEN])]
    simp [HASH_LEN]
  · exact ⟨_, expand_too_long S prk info prk_len info_len output L f hprk hlen hw1 hinfo hw2
      (by simp only [HASH_LEN]; omega), rfl, rfl, rfl⟩

/-- C4, amended, at a concrete input: a 64-byte PRK, an absent info and the
library `refSodium toyHmac`; `16320` succeeds and `16321` is answered with
`LENGTH`. -/
theorem expand_length_limit_witness :
    (∃ r, hkdf_hmacsha512_expand (refSodium toyHmac) ⟨1000, List.replicate 64 1⟩ 64 ⟨0, []⟩ 0
        3000 16320 wideFrame = some r ∧ r.1 = E_HKDF_SUCCESS) ∧
    (∃ r, hkdf_hmacsha512_expand (refSodium toyHmac) ⟨1000, List.replicate 64 1⟩ 64 ⟨0, []⟩ 0
        3000 16321 wideFrame = some r ∧
      r.1 = E_HKDF_LENGTH ∧ r.2.trace = wideFrame.trace ∧ r.2.out = wideFrame.out) :=
  ⟨(expand_length_limit (refSodium toyHmac) ⟨1000, List.replicate 64 1⟩ ⟨0, []⟩ 64 0 3000
      wideFrame (by decide) (by decide) (by decide) (by decide) (by decide) (by decide)).1
      (refSodium_succeeds toyHmac) (by decide),
    (expand_length_limit (refSodium toyHmac) ⟨1000, List.replicate 64 1⟩ ⟨0, []⟩ 64 0 3000
      wideFrame (by decide) (by decide) (by decide) (by decide) (by decide) (by decide)).2.2
      16321 (by decide)⟩

/-- C5, as stated, fails in its last part: with `prk_len = 64` and otherwise
valid inputs the call does not succeed when `sodium_init` fails; it returns
`E_HKDF_INIT`. -/
theorem expand_prk64_unconditional_fails :
    (hkdf_hmacsha512_expand failingBoot ⟨1000, List.replicate 64 1⟩ 64 ⟨2000, [1, 2, 3]⟩ 3 3000
      32 demoFrame).map Prod.fst = some E_HKDF_INIT ∧ E_HKDF_INIT ≠ E_HKDF_SUCCESS := by
  decide

/-- C5, amended: Expand never accepts a PRK shorter than `HASH_LEN`.  For every
call with `prk_len < 64` the call returns `NULLPTR` if `prk` is null and
`LENGTH` otherwise, never `SUCCESS`, makes no library call and leaves the
output object unchanged; with `prk_len = 64` and otherwise valid inputs the
call returns `SUCCESS` provided the library calls succeed. -/
theorem expand_prk_length (S : Sodium) (prk info : Buf) (prk_len info_len output L : Nat)
    (f : Frame) :
    (prk_len < 64 →
      ∃ r, hkdf_hmacsha512_expand S prk prk_len info info_len output L f = some r ∧
        r.1 = (if prk.ptr = NULL then E_HKDF_NULLPTR else E_HKDF_LENGTH) ∧
        r.1 ≠ E_HKDF_SUCCESS ∧ r.2.trace = f.trace ∧ r.2.out = f.out) ∧
    (prk_len = 64 → LibSucceeds S → prk.ptr ≠ NULL → wraps prk.ptr prk_len = false →
      (info.ptr = NULL → info_len = 0) → wraps info.ptr info_len = false →
      (output = NULL → L = 0) → L ≤ 255 * 64 → wraps output L = false →
      ∃ r, hkdf_hmacsha512_expand S prk prk_len info info_len output L f = some r ∧
        r.1 = E_HKDF_SUCCESS) := by
  refine ⟨fun h => ⟨_, expand_short_prk S prk info prk_len info_len output L f h, rfl, ?_, rfl,
    rfl⟩, fun h hs h1 h3 h4 h5 h6 h7 h8 => ?_⟩
  · show (if prk.ptr = NULL then E_HKDF_NULLPTR else E_HKDF_LENGTH) ≠ E_HKDF_SUCCESS
    split_ifs <;> decide
  · exact expand_succeeds S hs prk info prk_len info_len output L f h1 (by rw [h]; rfl) h3 h4 h5
      h6 h7 h8

/-- C5, amended, at concrete inputs: `prk_len = 63` is answered with `LENGTH`,
`prk_len = 64` succeeds under the library `refSodium toyHmac`. -/
theorem expand_prk_length_witness :
    (∃ r, hkdf_hmacsha512_expand (refSodium toyHmac) ⟨1000, List.replicate 64 1⟩ 63
        ⟨2000, [1, 2, 3]⟩ 3 3000 32 demoFrame = some r ∧
      r.1 = (if (⟨1000, List.replicate 64 1⟩ : Buf).ptr = NULL then E_HKDF_NULLPTR
        else E_HKDF_LENGTH) ∧
      r.1 ≠ E_HKDF_SUCCESS ∧ r.2.trace = demoFrame.trace ∧ r.2.out = demoFrame.out) ∧
    (∃ r, hkdf_hmacsha512_expand (refSodium toyHmac) ⟨1000, List.replicate 64 1⟩ 64
        ⟨2000, [1, 2, 3]⟩ 3 3000 32 demoFrame = some r ∧ r.1 = E_HKDF_SUCCESS) :=
  ⟨(expand_prk_length (refSodium toyHmac) ⟨1000, List.replicate 64 1⟩ ⟨2000, [1, 2, 3]⟩ 63 3
      3000 32 demoFrame).1 (by decide),
    (expand_prk_length (refSodium toyHmac) ⟨1000, List.replicate 64 1⟩ ⟨2000, [1, 2, 3]⟩ 64 3
      3000 32 demoFrame).2 rfl (refSodium_succeeds toyHmac) (by decide) (by decide) (by decide)
      (by decide) (by decide) (by decide) (by decide)⟩

/-- C6, as stated, fails: in Extract a wrapping IKM is not answered with
`OVERFLOW` independently of the other buffers; with a null salt of length 5
the call returns `E_HKDF_LENGTH`. -/
theorem overflow_not_independent :
    wraps 18446744073709551615 2 = true ∧
    (hkdf_hmacsha512_extract (refSodium toyHmac) ⟨0, []⟩ 5 ⟨18446744073709551615, [1, 2]⟩ 2
      3000 64 demoFrame).1 = E_HKDF_LENGTH ∧ E_HKDF_LENGTH ≠ E_HKDF_OVERFLOW := by
  decide

/-- C6, amended: for each of the six buffers (Extract: salt, IKM, PRK output;
Expand: PRK, info, output), every call in which that buffer's pointer+length
pair wraps is rejected with a precondition code before any library call and
with the output object unchanged; the code is `OVERFLOW` whenever the checks
that come before that buffer's overflow check pass (for the salt of Extract
there is nothing to pass), and otherwise it is the code of an earlier check. -/
theorem overflow_rejected (S : Sodium) (salt ikm prk info : Buf)
    (salt_len ikm_len out_ptr out_len prk_len info_len output output_len : Nat) (f : Frame) :
    (wraps salt.ptr salt_len = true →
      (hkdf_hmacsha512_extract S salt salt_len ikm ikm_len out_ptr out_len f).1 =
        E_HKDF_OVERFLOW ∧
      (hkdf_hmacsha512_extract S salt salt_len ikm ikm_len out_ptr out_len f).2.trace = f.trace ∧
      (hkdf_hmacsha512_extract S salt salt_len ikm ikm_len out_ptr out_len f).2.out = f.out) ∧
    (wraps ikm.ptr ikm_len = true →
      ((hkdf_hmacsha512_extract S salt salt_len ikm ikm_len out_ptr out_len f).1 =
          E_HKDF_NULLPTR ∨
        (hkdf_hmacsha512_extract S salt salt_len ikm ikm_len out_ptr out_len f).1 =
          E_HKDF_LENGTH ∨
        (hkdf_hmacsha512_extract S salt salt_len ikm ikm_len out_ptr out_len f).1 =
          E_HKDF_OVERFLOW) ∧
      (hkdf_hmacsha512_extract S salt salt_len ikm ikm_len out_ptr out_len f).2.trace = f.trace ∧
      (hkdf_hmacsha512_extract S salt salt_len ikm ikm_len out_ptr out_len f).2.out = f.out ∧
      ((salt.ptr = NULL → salt_len = 0) → wraps salt.ptr salt_len = false →
        (hkdf_hmacsha512_extract S salt salt_len ikm ikm_len out_ptr out_len f).1 =
          E_HKDF_OVERFLOW)) ∧
    (wraps out_ptr out_len = true →
      ((hkdf_hmacsha512_extract S salt salt_len ikm ikm_len out_ptr out_len f).1 =
          E_HKDF_NULLPTR ∨
        (hkdf_hmacsha512_extract S salt salt_len ikm ikm_len out_ptr out_len f).1 =
          E_HKDF_LENGTH ∨
        (hkdf_hmacsha512_extract S salt salt_len ikm ikm_len out_ptr out_len f).1 =
          E_HKDF_OVERFLOW) ∧
      (hkdf_hmacsha512_extract S salt salt_len ikm ikm_len out_ptr out_len f).2.trace = f.trace ∧
      (hkdf_hmacsha512_extract S salt salt_len ikm ikm_len out_ptr out_len f).2.out = f.out ∧
      ((salt.ptr = NULL → salt_len = 0) → wraps salt.ptr salt_len = false →
        (ikm.ptr = NULL → ikm_len = 0) → wraps ikm.ptr ikm_len = false → out_len = 64 →
        (hkdf_hmacsha512_extract S salt salt_len ikm ikm_len out_ptr out_len f).1 =
          E_HKDF_OVERFLOW)) ∧
    (wraps prk.ptr prk_len = true →
      ∃ r, hkdf_hmacsha512_expand S prk prk_len info info_len output output_len f = some r ∧
        (r.1 = E_HKDF_NULLPTR ∨ r.1 = E_HKDF_LENGTH ∨ r.1 = E_HKDF_OVERFLOW) ∧
        r.2.trace = f.trace ∧ r.2.out = f.out ∧
        (64 ≤ prk_len → r.1 = E_HKDF_OVERFLOW)) ∧
    (wraps info.ptr info_len = true →
      ∃ r, hkdf_hmacsha512_expand S prk prk_len info info_len output output_len f = some r ∧
        (r.1 = E_HKDF_NULLPTR ∨ r.1 = E_HKDF_LENGTH ∨ r.1 = E_HKDF_OVERFLOW) ∧
        r.2.trace = f.trace ∧ r.2.out = f.out ∧
        (prk.ptr ≠ NULL → 64 ≤ prk_len → wraps prk.ptr prk_len = false →
          r.1 = E_HKDF_OVERFLOW)) ∧
    (wraps output output_len = true →
      ∃ r, hkdf_hmacsha512_expand S prk prk_len info info_len output output_len f = some r ∧
        (r.1 = E_HKDF_NULLPTR ∨ r.1 = E_HKDF_LENGTH ∨ r.1 = E_HKDF_OVERFLOW) ∧
        r.2.trace = f.trace ∧ r.2.out = f.out ∧
        (prk.ptr ≠ NULL → 64 ≤ prk_len → wraps prk.ptr prk_len = false →
          (info.ptr = NULL → info_len = 0) → wraps info.ptr info_len = false →
          output_len ≤ 255 * 64 → r.1 = E_HKDF_OVERFLOW)) := by
  refine ⟨fun hw => ?_, fun hw => ?_, fun hw => ?_, fun hw => ?_, fun hw => ?_, fun hw => ?_⟩
  · obtain ⟨-, h2, h3⟩ := extract_rejected S salt ikm salt_len ikm_len out_ptr out_len f
      (fun hv => by simp [hw] at hv)
    have hn := wraps_ne_null _ _ hw
    exact ⟨by simp [hkdf_hmacsha512_extract, extract_body, hn, hw], h2, h3⟩
  · obtain ⟨h1, h2, h3⟩ := extract_rejected S salt ikm salt_len ikm_len out_ptr out_len f
      (fun hv => by simp [hw] at hv)
    have hn := wraps_ne_null _ _ hw
    refine ⟨h1, h2, h3, fun a1 a2 => ?_⟩
    have c1 : ¬ (salt.ptr = NULL ∧ salt_len ≠ 0) := fun h => h.2 (a1 h.1)
    simp [hkdf_hmacsha512_extract, extract_body, c1, a2, hn, hw]
  · obtain ⟨h1, h2, h3⟩ := extract_rejected S salt ikm salt_len ikm_len out_ptr out_len f
      (fun hv => by simp [hw] at hv)
    have hn := wraps_ne_null _ _ hw
    refine ⟨h1, h2, h3, fun a1 a2 a3 a4 a5 => ?_⟩
    have c1 : ¬ (salt.ptr = NULL ∧ salt_len ≠ 0) := fun h => h.2 (a1 h.1)
    have c3 : ¬ (ikm.ptr = NULL ∧ ikm_len ≠ 0) := fun h => h.2 (a3 h.1)
    subst a5
    simp [hkdf_hmacsha512_extract, extract_body, c1, a2, c3, a4, hn, hw, HASH_LEN]
  · obtain ⟨r, hr, h1, h2, h3⟩ := expand_rejected S prk info prk_len info_len output output_len
      f (fun hv => by simp [hw] at hv)
    have hn := wraps_ne_null _ _ hw
    refine ⟨r, hr, h1, h2, h3, fun a2 => ?_⟩
    have c2 : ¬ prk_len < HASH_LEN := by simp only [HASH_LEN]; omega
    have hb : expand_body S prk prk_len info info_len output output_len f =
        some (E_HKDF_OVERFLOW, f) := by
      simp [expand_body, hn, c2, hw]
    rw [expand_of_body S prk info prk_len info_len output output_len f _ hb] at hr
    cases hr
    rfl
  · obtain ⟨r, hr, h1, h2, h3⟩ := expand_rejected S prk info prk_len info_len output output_len
      f (fun hv => by simp [hw] at hv)
    have hn := wraps_ne_null _ _ hw
    refine ⟨r, hr, h1, h2, h3, fun a1 a2 a3 => ?_⟩
    have c2 : ¬ prk_len < HASH_LEN := by simp only [HASH_LEN]; omega
    have hb : expand_body S prk prk_len info info_len output output_len f =
        some (E_HKDF_OVERFLOW, f) := by
      simp [expand_body, a1, c2, a3, hn, hw]
    rw [expand_of_body S prk info prk_len info_len output output_len f _ hb] at hr
    cases hr
    rfl
  · obtain ⟨r, hr, h1, h2, h3⟩ := expand_rejected S prk info prk_len info_len output output_len
      f (fun hv => by simp [hw] at hv)
    have hn := wraps_ne_null _ _ hw
    refine ⟨r, hr, h1, h2, h3, fun a1 a2 a3 a4 a5 a6 => ?_⟩
    have c2 : ¬ prk_len < HASH_LEN := by simp only [HASH_LEN]; omega
    have c4 : ¬ (info.ptr = NULL ∧ info_len ≠ 0) := fun h => h.2 (a4 h.1)
    have c6 : ¬ ((output = NULL ∧ output_len ≠ 0) ∨ output_len > 255 * HASH_LEN) := by
      rintro (h | h)
      · exact hn h.1
      · simp only [HASH_LEN] at h; omega
    have hb : expand_body S prk prk_len info info_len output output_len f =
        some (E_HKDF_OVERFLOW, f) := by
      simp only [expand_body, a1, c2, a3, c4, a5, c6, hw, if_false, if_true,
        Bool.false_eq_true]
    rw [expand_of_body S prk info prk_len info_len output output_len f _ hb] at hr
    cases hr
    rfl

/-- C6, amended, at a concrete input: in Extract a valid one-byte salt and an
IKM at the last address with length 2; in Expand an output at the last address
with length 32. -/
theorem overflow_rejected_witness :
    (hkdf_hmacsha512_extract (refSodium toyHmac) ⟨1000, [9]⟩ 1 ⟨18446744073709551615, [1, 2]⟩ 2
      3000 64 demoFrame).1 = E_HKDF_OVERFLOW ∧
    (hkdf_hmacsha512_extract (refSodium toyHmac) ⟨1000, [9]⟩ 1 ⟨18446744073709551615, [1, 2]⟩ 2
      3000 64 demoFrame).2.trace = demoFrame.trace ∧
    (hkdf_hmacsha512_extract (refSodium toyHmac) ⟨1000, [9]⟩ 1 ⟨18446744073709551615, [1, 2]⟩ 2
      3000 64 demoFrame).2.out = demoFrame.out :=
  ⟨((overflow_rejected (refSodium toyHmac) ⟨1000, [9]⟩ ⟨18446744073709551615, [1, 2]⟩
      ⟨1000, List.replicate 64 1⟩ ⟨2000, [1, 2, 3]⟩ 1 2 3000 64 64 3 18446744073709551615 32
      demoFrame).2.1 (by decide)).2.2.2 (by decide) (by decide),
    ((overflow_rejected (refSodium toyHmac) ⟨1000, [9]⟩ ⟨18446744073709551615, [1, 2]⟩
      ⟨1000, List.replicate 64 1⟩ ⟨2000, [1, 2, 3]⟩ 1 2 3000 64 64 3 18446744073709551615 32
      demoFrame).2.1 (by decide)).2.1,
    ((overflow_rejected (refSodium toyHmac) ⟨1000, [9]⟩ ⟨18446744073709551615, [1, 2]⟩
      ⟨1000, List.replicate 64 1⟩ ⟨2000, [1, 2, 3]⟩ 1 2 3000 64 64 3 18446744073709551615 32
      demoFrame).2.1 (by decide)).2.2.1⟩

/-- C7: zeroization on every exit path.  For every call of Extract and every
call of Expand, whatever the arguments, whatever the library does and
whatever status is returned, every byte of the HMAC state is zero when the
call returns, and for Expand every byte of the temporary last-block buffer is
zero as well. -/
theorem zeroization_on_every_exit (S : Sodium) (salt ikm prk info : Buf)
    (salt_len ikm_len out_ptr out_len prk_len info_len output output_len : Nat) (f : Frame) :
    (∀ b ∈ (hkdf_hmacsha512_extract S salt salt_len ikm ikm_len out_ptr out_len f).2.state,
      b = 0) ∧
    (∃ r, hkdf_hmacsha512_expand S prk prk_len info info_len output output_len f = some r ∧
      (∀ b ∈ r.2.state, b = 0) ∧ (∀ b ∈ r.2.tmp_block, b = 0)) := by
  refine ⟨fun b hb => ?_, ?_⟩
  · exact List.eq_of_mem_replicate hb
  · obtain ⟨r, hr, -, h1, h2⟩ :=
      expand_error_pure S prk info prk_len info_len output output_len f
    exact ⟨r, hr, h1, h2⟩

/-- C8: precondition errors are free of side effects.  Every call of Extract
that returns `NULLPTR`, `LENGTH` or `OVERFLOW` made no library call at all and
left the output object as it was; every call of Expand returns, and if it
returns one of these three codes it made no library call and left the output
object as it was. -/
theorem precondition_errors_pure (S : Sodium) (salt ikm prk info : Buf)
    (salt_len ikm_len out_ptr out_len prk_len info_len output output_len : Nat) (f : Frame) :
    ((hkdf_hmacsha512_extract S salt salt_len ikm ikm_len out_ptr out_len f).1 = E_HKDF_NULLPTR ∨
      (hkdf_hmacsha512_extract S salt salt_len ikm ikm_len out_ptr out_len f).1 = E_HKDF_LENGTH ∨
      (hkdf_hmacsha512_extract S salt salt_len ikm ikm_len out_ptr out_len f).1 =
        E_HKDF_OVERFLOW →
      (hkdf_hmacsha512_extract S salt salt_len ikm ikm_len out_ptr out_len f).2.trace = f.trace ∧
      (hkdf_hmacsha512_extract S salt salt_len ikm ikm_len out_ptr out_len f).2.out = f.out) ∧
    (∃ r, hkdf_hmacsha512_expand S prk prk_len info info_len output output_len f = some r ∧
      (r.1 = E_HKDF_NULLPTR ∨ r.1 = E_HKDF_LENGTH ∨ r.1 = E_HKDF_OVERFLOW →
        r.2.trace = f.trace ∧ r.2.out = f.out)) := by
  refine ⟨extract_error_pure S salt ikm salt_len ikm_len out_ptr out_len f, ?_⟩
  obtain ⟨r, hr, h, -, -⟩ := expand_error_pure S prk info prk_len info_len output output_len f
  exact ⟨r, hr, h⟩

/-- C8, at concrete inputs: Extract with a null salt of length 5 returns
`LENGTH`, Expand with a null PRK returns `NULLPTR`; neither touched the trace
or the output object. -/
theorem precondition_errors_pure_witness :
    (hkdf_hmacsha512_extract (refSodium toyHmac) ⟨0, []⟩ 5 ⟨2000, [1, 2, 3]⟩ 3 3000 64
      demoFrame).1 = E_HKDF_LENGTH ∧
    ((hkdf_hmacsha512_extract (refSodium toyHmac) ⟨0, []⟩ 5 ⟨2000, [1, 2, 3]⟩ 3 3000 64
      demoFrame).2.trace = demoFrame.trace ∧
    (hkdf_hmacsha512_extract (refSodium toyHmac) ⟨0, []⟩ 5 ⟨2000, [1, 2, 3]⟩ 3 3000 64
      demoFrame).2.out = demoFrame.out) ∧
    (hkdf_hmacsha512_expand (refSodium toyHmac) ⟨0, []⟩ 64 ⟨2000, [1, 2, 3]⟩ 3 3000 32
      demoFrame).map Prod.fst = some E_HKDF_NULLPTR :=
  ⟨by decide,
    (precondition_errors_pure (refSodium toyHmac) ⟨0, []⟩ ⟨2000, [1, 2, 3]⟩ ⟨0, []⟩
      ⟨2000, [1, 2, 3]⟩ 5 3 3000 64 64 3 3000 32 demoFrame).1 (Or.inr (Or.inl (by decide))),
    by decide⟩

/-- C9, as stated, fails: with a valid PRK, a valid info and `output_len = 0`
the call does not return `SUCCESS` when `sodium_init` fails; it returns
`E_HKDF_INIT`. -/
theorem expand_zero_unconditional_fails :
    (hkdf_hmacsha512_expand failingBoot ⟨1000, List.replicate 64 1⟩ 64 ⟨2000, [1, 2, 3]⟩ 3 0 0
      demoFrame).map Prod.fst = some E_HKDF_INIT ∧ E_HKDF_INIT ≠ E_HKDF_SUCCESS := by
  decide

/-- C9, amended: Expand with `output_len = 0` writes nothing and, provided
`sodium_init` does not fail, succeeds.  For every valid PRK, every valid info
and any output pointer, null included, the call returns `SUCCESS`, the only
library call it makes is `sodium_init` (no HMAC init, update or final), and
the output object is unchanged. -/
theorem expand_zero_length (S : Sodium) (prk info : Buf) (prk_len info_len output : Nat)
    (f : Frame) (hboot : S.sodium_init ≠ -1)
    (hprk : prk.ptr ≠ NULL) (hlen : HASH_LEN ≤ prk_len) (hw1 : wraps prk.ptr prk_len = false)
    (hinfo : info.ptr = NULL → info_len = 0) (hw2 : wraps info.ptr info_len = false)
    (hptr : output < SIZE_MOD) :
    ∃ r, hkdf_hmacsha512_expand S prk prk_len info info_len output 0 f = some r ∧
      r.1 = E_HKDF_SUCCESS ∧ r.2.trace = f.trace ++ [LibCall.sodium_init] ∧
      r.2.out = f.out := by
  have hw3 : wraps output 0 = false := by
    simp only [wraps, addSz, Nat.add_zero, Nat.mod_eq_of_lt hptr, lt_self_iff_false,
      decide_False]
  have hb := expand_body_valid S prk info prk_len info_len output 0 f hprk hlen hw1 hinfo hw2
    (fun _ => rfl) (Nat.zero_le _) hw3
  have hc : expand_compute S prk prk_len info info_len output 0 f =
      some (E_HKDF_SUCCESS, (call_sodium_init S f).2) := by
    have hb2 : ¬ (call_sodium_init S f).1 = -1 := hboot
    have h00 : subSz (addSz 0 HASH_LEN) 1 / HASH_LEN = 0 := by
      rw [block_count_eq 0 (Nat.zero_le _)]
      simp [HASH_LEN]
    simp only [expand_compute, hb2, if_false, h00, if_true]
  exact ⟨_, expand_of_body S prk info prk_len info_len output 0 f _ (hb.trans hc), rfl, rfl, rfl⟩

/-- C9, amended, at a concrete input: a null output pointer. -/
theorem expand_zero_length_witness :
    ∃ r, hkdf_hmacsha512_expand (refSodium toyHmac) ⟨1000, List.replicate 64 1⟩ 64
        ⟨2000, [1, 2, 3]⟩ 3 0 0 demoFrame = some r ∧
      r.1 = E_HKDF_SUCCESS ∧ r.2.trace = demoFrame.trace ++ [LibCall.sodium_init] ∧
      r.2.out = demoFrame.out :=
  expand_zero_length (refSodium toyHmac) ⟨1000, List.replicate 64 1⟩ ⟨2000, [1, 2, 3]⟩ 64 3 0
    demoFrame (by decide) (by decide) (by decide) (by decide) (by decide) (by decide)
    (by decide)

/-- C10: an absent salt is equivalent to a salt of `HASH_LEN` zero bytes.  With
HMAC given by its definition over a hash `H` with 64-byte digests (the key
zero-padded to the 128-byte block) and a library that succeeds and computes
it, for every valid IKM and output, Extract called with `salt_len = 0` (the
salt pointer null or not) and Extract called with a salt of 64 zero bytes both
return `SUCCESS` and write the same 64-byte PRK; and Extract called with a
null salt and `salt_len ≠ 0` returns `LENGTH`, whatever the library. -/
theorem absent_salt_is_zero_salt (S : Sodium) (R : Bytes → Bytes → Bytes → Prop)
    (H : Bytes → Bytes) (hH : ∀ x, (H x).length = HASH_LEN)
    (hs : LibSucceeds S) (hc : LibComputes S R (hmacsha512_def H))
    (salt zsalt ikm : Buf) (ikm_len prk : Nat) (f g : Frame)
    (hsalt : wraps salt.ptr 0 = false)
    (hzero : zsalt.data.take HASH_LEN = List.replicate HASH_LEN 0)
    (hzptr : zsalt.ptr ≠ NULL) (hzw : wraps zsalt.ptr HASH_LEN = false)
    (hikm : ikm.ptr = NULL → ikm_len = 0) (hw2 : wraps ikm.ptr ikm_len = false)
    (hprk : prk ≠ NULL) (hw3 : wraps prk HASH_LEN = false) :
    (hkdf_hmacsha512_extract S salt 0 ikm ikm_len prk HASH_LEN f).1 = E_HKDF_SUCCESS ∧
    (hkdf_hmacsha512_extract S zsalt HASH_LEN ikm ikm_len prk HASH_LEN g).1 = E_HKDF_SUCCESS ∧
    (hkdf_hmacsha512_extract S salt 0 ikm ikm_len prk HASH_LEN f).2.out.take 64 =
      (hkdf_hmacsha512_extract S zsalt HASH_LEN ikm ikm_len prk HASH_LEN g).2.out.take 64 ∧
    ((hkdf_hmacsha512_extract S salt 0 ikm ikm_len prk HASH_LEN f).2.out.take 64).length = 64 ∧
    (∀ (S1 : Sodium) (d : Bytes) (n : Nat), n ≠ 0 →
      (hkdf_hmacsha512_extract S1 ⟨NULL, d⟩ n ikm ikm_len prk HASH_LEN f).1 = E_HKDF_LENGTH) := by
  obtain ⟨a1, a2⟩ := extract_ok S R (hmacsha512_def H) hs hc salt ikm 0 ikm_len prk f
    (fun _ => rfl) hikm hprk hsalt hw2 hw3
  obtain ⟨b1, b2⟩ := extract_ok S R (hmacsha512_def H) hs hc zsalt ikm HASH_LEN ikm_len prk g
    (fun h => absurd h hzptr) hikm hprk hzw hw2 hw3
  have hl := hmacsha512_def_length H hH [] (ikm.data.take ikm_len)
  have e := hmacsha512_def_zero_key H (ikm.data.take ikm_len)
  rw [hzero, ← e] at b2
  rw [List.take_zero] at a2
  have hl64 : (hmacsha512_def H [] (List.take ikm_len ikm.data)).length = 64 := hl
  refine ⟨a1, b1, ?_, ?_, fun S1 d n hn => ?_⟩
  · rw [a2, b2, List.take_left' hl64, List.take_left' hl64]
  · rw [a2, List.take_left' hl64, hl64]
  · simp [hkdf_hmacsha512_extract, extract_body, hn]

/-- C10, at a concrete input: a null salt of length 0 against 64 zero bytes at
address 1000, a 3-byte IKM, HMAC over `toyHash`. -/
theorem absent_salt_is_zero_salt_witness :
    (hkdf_hmacsha512_extract (refSodium (hmacsha512_def toyHash)) ⟨0, []⟩ 0 ⟨2000, [1, 2, 3]⟩ 3
      3000 HASH_LEN demoFrame).1 = E_HKDF_SUCCESS ∧
    (hkdf_hmacsha512_extract (refSodium (hmacsha512_def toyHash)) ⟨1000, List.replicate 64 0⟩
      HASH_LEN ⟨2000, [1, 2, 3]⟩ 3 3000 HASH_LEN wideFrame).1 = E_HKDF_SUCCESS ∧
    (hkdf_hmacsha512_extract (refSodium (hmacsha512_def toyHash)) ⟨0, []⟩ 0 ⟨2000, [1, 2, 3]⟩ 3
      3000 HASH_LEN demoFrame).2.out.take 64 =
      (hkdf_hmacsha512_extract (refSodium (hmacsha512_def toyHash)) ⟨1000, List.replicate 64 0⟩
        HASH_LEN ⟨2000, [1, 2, 3]⟩ 3 3000 HASH_LEN wideFrame).2.out.take 64 ∧
    ((hkdf_hmacsha512_extract (refSodium (hmacsha512_def toyHash)) ⟨0, []⟩ 0 ⟨2000, [1, 2, 3]⟩ 3
      3000 HASH_LEN demoFrame).2.out.take 64).length = 64 ∧
    (∀ (S1 : Sodium) (d : Bytes) (n : Nat), n ≠ 0 →
      (hkdf_hmacsha512_extract S1 ⟨NULL, d⟩ n ⟨2000, [1, 2, 3]⟩ 3 3000 HASH_LEN demoFrame).1 =
        E_HKDF_LENGTH) :=
  absent_salt_is_zero_salt (refSodium (hmacsha512_def toyHash)) refRep toyHash toyHash_length
    (refSodium_succeeds _) (refSodium_computes _ (hmacsha512_def_length toyHash toyHash_length))
    ⟨0, []⟩ ⟨1000, List.replicate 64 0⟩ ⟨2000, [1, 2, 3]⟩ 3 3000 demoFrame wideFrame
    (by decide) (by decide) (by decide) (by decide) (by decide) (by decide) (by decide)
    (by decide)

/-- C11: Expand is deterministic in (PRK bytes, info bytes, `L`).  Under a
library that computes `hmac`, any two calls that return `SUCCESS` and are
given the same `prk_len` PRK bytes, the same `info_len` info bytes and the
same `L` leave the same `L` output bytes, whatever the addresses of the
buffers and whatever the output objects, the state, the temporary block and
the trace held on entry. -/
theorem expand_deterministic (S : Sodium) (R : Bytes → Bytes → Bytes → Prop)
    (hmac : Bytes → Bytes → Bytes) (hc : LibComputes S R hmac)
    (prk1 prk2 info1 info2 : Buf) (prk_len info_len output1 output2 L : Nat) (f1 f2 : Frame)
    (hprk : prk1.data.take prk_len = prk2.data.take prk_len)
    (hinfo : info1.data.take info_len = info2.data.take info_len)
    (h1 : (hkdf_hmacsha512_expand S prk1 prk_len info1 info_len output1 L f1).map Prod.fst =
      some E_HKDF_SUCCESS)
    (h2 : (hkdf_hmacsha512_expand S prk2 prk_len info2 info_len output2 L f2).map Prod.fst =
      some E_HKDF_SUCCESS) :
    (hkdf_hmacsha512_expand S prk1 prk_len info1 info_len output1 L f1).map
        (fun r => r.2.out.take L) =
      (hkdf_hmacsha512_expand S prk2 prk_len info2 info_len output2 L f2).map
        (fun r => r.2.out.take L) := by
  rw [expand_success_take S R hmac hc prk1 info1 prk_len info_len output1 L f1 h1,
    expand_success_take S R hmac hc prk2 info2 prk_len info_len output2 L f2 h2, hprk, hinfo]

/-- C11, at a concrete input: the same 64 PRK bytes and 3 info bytes at
different addresses (the second PRK object is longer), two different frames,
`L = 82`. -/
theorem expand_deterministic_witness :
    (hkdf_hmacsha512_expand (refSodium toyHmac) ⟨1000, List.replicate 64 1⟩ 64
        ⟨2000, [1, 2, 3]⟩ 3 3000 82 demoFrame).map (fun r => r.2.out.take 82) =
      (hkdf_hmacsha512_expand (refSodium toyHmac) ⟨5000, List.replicate 70 1⟩ 64
        ⟨7000, [1, 2, 3, 4]⟩ 3 9000 82 wideFrame).map (fun r => r.2.out.take 82) :=
  expand_deterministic (refSodium toyHmac) refRep toyHmac
    (refSodium_computes toyHmac toyHmac_length) ⟨1000, List.replicate 64 1⟩
    ⟨5000, List.replicate 70 1⟩ ⟨2000, [1, 2, 3]⟩ ⟨7000, [1, 2, 3, 4]⟩ 64 3 3000 9000 82
    demoFrame wideFrame (by decide) (by decide) (by decide) (by decide)

/-- C12, as stated, fails: with a valid PRK and a valid info, a null output
pointer with `output_len = 32` is not answered with `NULLPTR`; the call
returns `E_HKDF_LENGTH`. -/
theorem expand_null_output_not_nullptr :
    (hkdf_hmacsha512_expand (refSodium toyHmac) ⟨1000, List.replicate 64 1⟩ 64
      ⟨2000, [1, 2, 3]⟩ 3 0 32 demoFrame).map Prod.fst = some E_HKDF_LENGTH ∧
    E_HKDF_LENGTH ≠ E_HKDF_NULLPTR := by
  decide

/-- C12, amended: Expand reports a null output pointer with a nonzero length
as `LENGTH`.  For every call with a valid PRK and a valid info, a null output
pointer with `1 ≤ output_len` returns `LENGTH`, before any library call; Extract,
for its part, returns `NULLPTR` for a null `prk` output pointer whenever the
salt and the IKM pass their checks. -/
theorem expand_null_output (S : Sodium) (prk info : Buf) (prk_len info_len L : Nat) (f : Frame)
    (hprk : prk.ptr ≠ NULL) (hlen : HASH_LEN ≤ prk_len) (hw1 : wraps prk.ptr prk_len = false)
    (hinfo : info.ptr = NULL → info_len = 0) (hw2 : wraps info.ptr info_len = false)
    (hL : 1 ≤ L) :
    (∃ r, hkdf_hmacsha512_expand S prk prk_len info info_len NULL L f = some r ∧
      r.1 = E_HKDF_LENGTH ∧ r.2.trace = f.trace ∧ r.2.out = f.out) ∧
    (∀ (salt ikm : Buf) (salt_len ikm_len out_len : Nat) (g : Frame),
      (salt.ptr = NULL → salt_len = 0) → wraps salt.ptr salt_len = false →
      (ikm.ptr = NULL → ikm_len = 0) → wraps ikm.ptr ikm_len = false →
      (hkdf_hmacsha512_extract S salt salt_len ikm ikm_len NULL out_len g).1 =
        E_HKDF_NULLPTR) := by
  constructor
  · have c2 : ¬ prk_len < HASH_LEN := by omega
    have c4 : ¬ (info.ptr = NULL ∧ info_len ≠ 0) := fun h => h.2 (hinfo h.1)
    have c6 : (True ∧ L ≠ 0) ∨ L > 255 * HASH_LEN := Or.inl ⟨trivial, by omega⟩
    have hb : expand_body S prk prk_len info info_len NULL L f = some (E_HKDF_LENGTH, f) := by
      simp only [expand_body, hprk, c2, hw1, c4, hw2, if_false, Bool.false_eq_true]
      rw [if_pos c6]
    exact ⟨_, expand_of_body S prk info prk_len info_len NULL L f _ hb, rfl, rfl, rfl⟩
  · intro salt ikm salt_len ikm_len out_len g a1 a2 a3 a4
    have c1 : ¬ (salt.ptr = NULL ∧ salt_len ≠ 0) := fun h => h.2 (a1 h.1)
    have c3 : ¬ (ikm.ptr = NULL ∧ ikm_len ≠ 0) := fun h => h.2 (a3 h.1)
    simp [hkdf_hmacsha512_extract, extract_body, c1, a2, c3, a4]

/-- C12, amended, at a concrete input: `output_len = 32` with a null output. -/
theorem expand_null_output_witness :
    ∃ r, hkdf_hmacsha512_expand (refSodium toyHmac) ⟨1000, List.replicate 64 1⟩ 64
        ⟨2000, [1, 2, 3]⟩ 3 NULL 32 demoFrame = some r ∧
      r.1 = E_HKDF_LENGTH ∧ r.2.trace = demoFrame.trace ∧ r.2.out = demoFrame.out :=
  (expand_null_output (refSodium toyHmac) ⟨1000, List.replicate 64 1⟩ ⟨2000, [1, 2, 3]⟩ 64 3 32
    demoFrame (by decide) (by decide) (by decide) (by decide) (by decide) (by decide)).1

/-- C13: Expand aborts at the first failure of the library and keeps the
earlier blocks.  For every valid call with `N = ceil(L / 64) ≥ 1`, under a
library that computes `hmac` whenever it reports success and whose first
failing call is call number `s` (`0` the init, `1..3` the updates, `4` the
final) of block `k`, `1 ≤ k ≤ N`: the call returns `INIT` if the failing call
is the init and `FAILURE` if it is an update or the final, the failing call is
the last library call made, and `output[0..(k-1)*64)` still holds
`T(1) || ... || T(k-1)`. -/
theorem expand_aborts_at_first_failure (S : Sodium) (R : Bytes → Bytes → Bytes → Prop)
    (hmac : Bytes → Bytes → Bytes) (hc : LibComputes S R hmac) (hboot : S.sodium_init ≠ -1)
    (prk info : Buf) (prk_len info_len output L : Nat) (f : Frame)
    (hprk : prk.ptr ≠ NULL) (hlen : HASH_LEN ≤ prk_len) (hw1 : wraps prk.ptr prk_len = false)
    (hinfo : info.ptr = NULL → info_len = 0) (hw2 : wraps info.ptr info_len = false)
    (hout : output ≠ NULL) (hL1 : 1 ≤ L) (hL : L ≤ 255 * 64) (hw3 : wraps output L = false)
    (k s c : Nat) (hk1 : 1 ≤ k) (hk2 : k ≤ (L + 63) / 64) (hs : s < 5)
    (hcdef : c = f.trace.length + 1 + 5 * (k - 1) + s) (hF : FailsFirstAt S c) :
    ∃ r, hkdf_hmacsha512_expand S prk prk_len info info_len output L f = some r ∧
      r.1 = (if s = 0 then E_HKDF_INIT else E_HKDF_FAILURE) ∧
      r.2.trace.length = c + 1 ∧
      r.2.out.take ((k - 1) * 64) =
        rfc5869_blocks hmac (prk.data.take prk_len) (info.data.take info_len) (k - 1) := by
  have hb := expand_body_valid S prk info prk_len info_len output L f hprk hlen hw1 hinfo hw2
    (fun h => absurd h hout) hL hw3
  have hN : (L + HASH_LEN - 1) / HASH_LEN = (L + 63) / 64 := rfl
  have hN255 : (L + 63) / 64 ≤ 255 := by omega
  rcases expand_compute_cases S prk info prk_len info_len output L f
    (fun i g => LoopInv hmac (prk.data.take prk_len) (info.data.take info_len) f.out f.trace
      f.tmp_block i g ∧ i + 1 ≤ k) hL
    (fun i g hi hP hz => by
      rw [hN] at hi
      refine ⟨loop_pass_ok S R hmac hc prk info prk_len info_len output i g f.out f.trace
        f.tmp_block hout (by omega) hP.1 hz, ?_⟩
      by_contra hlt
      obtain ⟨ht, hbuf, -⟩ := LoopInv_facts hmac hc.digest_len _ _ _ _ _ i g hP.1
      have hfail := (loop_pass_fails S c hF prk info prk_len info_len output (T_at output i) i g
        s hs (by rw [ht, hcdef]; have := hP.2; omega) hbuf).1
      rw [hz] at hfail
      split_ifs at hfail <;> simp [E_HKDF_INIT, E_HKDF_FAILURE] at hfail)
    ⟨⟨by simp [call_sodium_init, rfc5869_blocks], by simp [call_sodium_init, expand_calls], rfl⟩,
      hk1⟩
    with ⟨hbf, -⟩ | ⟨-, hz, -⟩ | ⟨-, j, fj, hj, hP, hne, h⟩ | ⟨-, M, f1, hM, hP, h⟩
  · exact absurd hbf hboot
  · omega
  · rw [hN] at hj
    obtain ⟨ht, hbuf, htake⟩ := LoopInv_facts hmac hc.digest_len _ _ _ _ _ j fj hP.1
    have hjk : j + 1 = k := by
      by_contra hlt
      exact hne (loop_pass_before S c hF prk info prk_len info_len output (T_at output j) j fj
        (by rw [ht, hcdef]; have := hP.2; omega))
    obtain ⟨a1, a2, a3⟩ := loop_pass_fails S c hF prk info prk_len info_len output
      (T_at output j) j fj s hs (by rw [ht, hcdef]; omega) hbuf
    have hk : k - 1 = j := by omega
    refine ⟨_, expand_of_body S prk info prk_len info_len output L f _ (hb.trans h), a1, a2, ?_⟩
    rw [hk]
    exact a3.trans htake
  · rw [hN] at hM
    obtain ⟨ht, hbuf, htake⟩ := LoopInv_facts hmac hc.digest_len _ _ _ _ _ M f1 hP.1
    have hk : k - 1 = M := by
      have := hP.2
      omega
    obtain ⟨a1, a2, a3⟩ := expand_last_fails S c hF prk info prk_len info_len output L (M + 1)
      (T_at output M) M f1 s hs (by rw [ht, hcdef, hk])
    refine ⟨_, expand_of_body S prk info prk_len info_len output L f _ (hb.trans h), a1, a2, ?_⟩
    rw [hk]
    show (expand_last S prk prk_len info info_len output L (M + 1) M (T_at output M)
      f1).2.out.take (M * HASH_LEN) = _
    rw [a3]
    exact htake

/-- C13, at concrete inputs: `L = 130`, three blocks, the library failing at
its call number 8 (the second update of block 2) and at its call number 11
(the init of block 3). -/
theorem expand_aborts_at_first_failure_witness :
    (∃ r, hkdf_hmacsha512_expand (failingAt toyHmac 8) ⟨1000, List.replicate 64 1⟩ 64
        ⟨2000, [1, 2, 3]⟩ 3 3000 130 wideFrame = some r ∧
      r.1 = (if 2 = 0 then E_HKDF_INIT else E_HKDF_FAILURE) ∧
      r.2.trace.length = 8 + 1 ∧
      r.2.out.take ((2 - 1) * 64) =
        rfc5869_blocks toyHmac ((List.replicate 64 1).take 64) ([1, 2, 3].take 3) (2 - 1)) ∧
    (∃ r, hkdf_hmacsha512_expand (failingAt toyHmac 11) ⟨1000, List.replicate 64 1⟩ 64
        ⟨2000, [1, 2, 3]⟩ 3 3000 130 wideFrame = some r ∧
      r.1 = (if 0 = 0 then E_HKDF_INIT else E_HKDF_FAILURE) ∧
      r.2.trace.length = 11 + 1 ∧
      r.2.out.take ((3 - 1) * 64) =
        rfc5869_blocks toyHmac ((List.replicate 64 1).take 64) ([1, 2, 3].take 3) (3 - 1)) :=
  ⟨expand_aborts_at_first_failure (failingAt toyHmac 8) refRep toyHmac
      (failingAt_computes toyHmac toyHmac_length 8) (by decide) ⟨1000, List.replicate 64 1⟩
      ⟨2000, [1, 2, 3]⟩ 64 3 3000 130 wideFrame (by decide) (by decide) (by decide) (by decide)
      (by decide) (by decide) (by decide) (by decide) (by decide) 2 2 8 (by decide) (by decide)
      (by decide) (by decide) (failingAt_fails toyHmac 8),
    expand_aborts_at_first_failure (failingAt toyHmac 11) refRep toyHmac
      (failingAt_computes toyHmac toyHmac_length 11) (by decide) ⟨1000, List.replicate 64 1⟩
      ⟨2000, [1, 2, 3]⟩ 64 3 3000 130 wideFrame (by decide) (by decide) (by decide) (by decide)
      (by decide) (by decide) (by decide) (by decide) (by decide) 3 0 11 (by decide) (by decide)
      (by decide) (by decide) (failingAt_fails toyHmac 11)⟩

/-- C14: the validation of `hkdf_hmacsha512_expand` is a fixed-order
first-failure decision.  Every call returns; when one of the seven conditions
holds the call returns the status of the first one that does, in the listed
order, and makes no library call; when none holds the call goes on to the
library (its first call, `sodium_init`, is recorded). -/
theorem expand_validation_order (S : Sodium) (prk info : Buf)
    (prk_len info_len output output_len : Nat) (f : Frame) :
    ∃ r, hkdf_hmacsha512_expand S prk prk_len info info_len output output_len f = some r ∧
      match first_failure (expand_checks prk.ptr prk_len info.ptr info_len output output_len) with
      | some c => r.1 = c ∧ r.2.trace = f.trace
      | none => r.2.trace.take (f.trace.length + 1) = f.trace ++ [LibCall.sodium_init] := by
  have hpre : ∀ (t u : List LibCall), (t ++ LibCall.sodium_init :: u).take (t.length + 1) =
      t ++ [LibCall.sodium_init] := by
    intro t u
    rw [List.take_append_eq_append_take]
    simp
  have hw : ∀ p l : Nat, decide ((p + l) % 2 ^ 64 < p) = wraps p l := fun _ _ => rfl
  have hret : ∀ c : Int, expand_body S prk prk_len info info_len output output_len f =
      some (c, f) →
      ∃ r, hkdf_hmacsha512_expand S prk prk_len info info_len output output_len f = some r ∧
        r.1 = c ∧ r.2.trace = f.trace := fun c hb =>
    ⟨_, expand_of_body S prk info prk_len info_len output output_len f _ hb, rfl, rfl⟩
  simp only [expand_checks, hw]
  by_cases c1 : prk.ptr = 0
  · simpa [first_failure, c1] using hret 2 (by simp [expand_body, NULL, c1, E_HKDF_NULLPTR])
  by_cases c2 : prk_len < 64
  · simpa [first_failure, c1, c2] using
      hret 3 (by simp [expand_body, NULL, c1, c2, HASH_LEN, E_HKDF_LENGTH])
  by_cases c3 : wraps prk.ptr prk_len = true
  · simpa [first_failure, c1, c2, c3] using
      hret 4 (by simp [expand_body, NULL, c1, c2, c3, HASH_LEN, E_HKDF_OVERFLOW])
  by_cases c4 : info.ptr = 0 ∧ info_len ≠ 0
  · simpa [first_failure, c1, c2, c3, c4] using
      hret 3 (by simp [expand_body, NULL, c1, c2, c3, c4, HASH_LEN, E_HKDF_LENGTH])
  by_cases c5 : wraps info.ptr info_len = true
  · simpa [first_failure, c1, c2, c3, c4, c5] using
      hret 4 (by simp [expand_body, NULL, c1, c2, c3, c4, c5, HASH_LEN, E_HKDF_OVERFLOW])
  by_cases c6 : (output = 0 ∧ output_len ≠ 0) ∨ output_len > 255 * 64
  · simpa [first_failure, c1, c2, c3, c4, c5, c6] using
      hret 3 (by simp [expand_body, NULL, c1, c2, c3, c4, c5, c6, HASH_LEN, E_HKDF_LENGTH])
  by_cases c7 : wraps output output_len = true
  · simpa [first_failure, c1, c2, c3, c4, c5, c6, c7] using
      hret 4 (by simp [expand_body, NULL, c1, c2, c3, c4, c5, c6, c7, HASH_LEN, E_HKDF_OVERFLOW])
  have hL : output_len ≤ 255 * HASH_LEN := by
    simp only [HASH_LEN]
    by_contra hn
    exact c6 (Or.inr (by omega))
  have hb : expand_body S prk prk_len info info_len output output_len f =
      expand_compute S prk prk_len info info_len output output_len f :=
    expand_body_valid S prk info prk_len info_len output output_len f c1
      (by simp only [HASH_LEN]; omega) (by simpa using c3)
      (fun h => by_contra fun hn => c4 ⟨h, hn⟩) (by simpa using c5)
      (fun h => by_contra fun hn => c6 (Or.inl ⟨h, hn⟩)) hL (by simpa using c7)
  obtain ⟨r, u, hr, hu⟩ := expand_compute_trace S prk info prk_len info_len output output_len f hL
  refine ⟨_, expand_of_body S prk info prk_len info_len output output_len f r (hb.trans hr), ?_⟩
  have hnone : first_failure
      [(decide (prk.ptr = 0), (2 : Int)), (decide (prk_len < 64), 3),
        (wraps prk.ptr prk_len, 4), (decide (info.ptr = 0 ∧ info_len ≠ 0), 3),
        (wraps info.ptr info_len, 4),
        (decide ((output = 0 ∧ output_len ≠ 0) ∨ output_len > 255 * 64), 3),
        (wraps output output_len, 4)] = none := by
    simp [first_failure, c1, c2, c3, c4, c5, c6, c7]
  rw [hnone]
  show r.2.trace.take (f.trace.length + 1) = f.trace ++ [LibCall.sodium_init]
  rw [hu, hpre]

/-- C15: Extract maps the failures of the library to status codes by stage.
For every input that passes validation: if `sodium_init` fails (returns `-1`)
the call returns `INIT` and no HMAC call is made; otherwise, if the HMAC init
keyed with the salt fails the call returns `INIT` and neither update nor final
is called; otherwise, if the update with the IKM fails the call returns
`FAILURE` and final is not called; otherwise, if final fails the call returns
`FAILURE`; and the call returns `SUCCESS` if and only if all four succeed. -/
theorem extract_stage_codes (S : Sodium) (salt ikm : Buf) (salt_len ikm_len prk : Nat)
    (f : Frame) (hsalt : salt.ptr = NULL → salt_len = 0) (hw1 : wraps salt.ptr salt_len = false)
    (hikm : ikm.ptr = NULL → ikm_len = 0) (hw2 : wraps ikm.ptr ikm_len = false)
    (hprk : prk ≠ NULL) (hw3 : wraps prk HASH_LEN = false) :
    let E := hkdf_hmacsha512_extract S salt salt_len ikm ikm_len prk HASH_LEN f
    let st1 := S.crypto_auth_hmacsha512_init (f.trace.length + 1) f.state
      (salt.data.take salt_len)
    let st2 := S.crypto_auth_hmacsha512_update (f.trace.length + 2) st1.2
      (ikm.data.take ikm_len)
    let st3 := S.crypto_auth_hmacsha512_final (f.trace.length + 3) st2.2
    (S.sodium_init = -1 →
      E.1 = E_HKDF_INIT ∧ E.2.trace = f.trace ++ [LibCall.sodium_init]) ∧
    (S.sodium_init ≠ -1 → st1.1 ≠ 0 →
      E.1 = E_HKDF_INIT ∧ E.2.trace = f.trace ++
        [LibCall.sodium_init, LibCall.hmacsha512_init (salt.data.take salt_len)]) ∧
    (S.sodium_init ≠ -1 → st1.1 = 0 → st2.1 ≠ 0 →
      E.1 = E_HKDF_FAILURE ∧ E.2.trace = f.trace ++
        [LibCall.sodium_init, LibCall.hmacsha512_init (salt.data.take salt_len),
          LibCall.hmacsha512_update (ikm.data.take ikm_len)]) ∧
    (S.sodium_init ≠ -1 → st1.1 = 0 → st2.1 = 0 → st3.1 ≠ 0 →
      E.1 = E_HKDF_FAILURE ∧ E.2.trace = f.trace ++
        [LibCall.sodium_init, LibCall.hmacsha512_init (salt.data.take salt_len),
          LibCall.hmacsha512_update (ikm.data.take ikm_len), LibCall.hmacsha512_final]) ∧
    (E.1 = E_HKDF_SUCCESS ↔
      S.sodium_init ≠ -1 ∧ st1.1 = 0 ∧ st2.1 = 0 ∧ st3.1 = 0) := by
  have c1 : ¬ (salt.ptr = NULL ∧ salt_len ≠ 0) := fun h => h.2 (hsalt h.1)
  have c3 : ¬ (ikm.ptr = NULL ∧ ikm_len ≠ 0) := fun h => h.2 (hikm h.1)
  have l1 : (f.trace ++ [LibCall.sodium_init]).length = f.trace.length + 1 := by simp
  have l2 : (f.trace ++ [LibCall.sodium_init] ++
      [LibCall.hmacsha512_init (salt.data.take salt_len)]).length = f.trace.length + 2 := by
    simp
  have l3 : (f.trace ++ [LibCall.sodium_init] ++
      [LibCall.hmacsha512_init (salt.data.take salt_len)] ++
      [LibCall.hmacsha512_update (ikm.data.take ikm_len)]).length = f.trace.length + 3 := by
    simp
  simp only [hkdf_hmacsha512_extract, extract_body, c1, hw1, c3, hw2, hprk, hw3, if_false,
    Bool.false_eq_true, ne_eq, not_true_eq_false, call_sodium_init, call_init, call_update,
    call_final, l1, l2, l3]
  refine ⟨fun a => ?_, fun a b => ?_, fun a b c => ?_, fun a b c d => ?_, ?_⟩
  · simp [a]
  · simp [a, b]
  · simp [a, b, c]
  · simp [a, b, c, d]
  · by_cases a : S.sodium_init = -1
    · simp [a, E_HKDF_INIT, E_HKDF_SUCCESS]
    by_cases b : (S.crypto_auth_hmacsha512_init (f.trace.length + 1) f.state
        (salt.data.take salt_len)).1 = 0
    · by_cases c : (S.crypto_auth_hmacsha512_update (f.trace.length + 2)
          (S.crypto_auth_hmacsha512_init (f.trace.length + 1) f.state
            (salt.data.take salt_len)).2 (ikm.data.take ikm_len)).1 = 0
      · by_cases d : (S.crypto_auth_hmacsha512_final (f.trace.length + 3)
            (S.crypto_auth_hmacsha512_update (f.trace.length + 2)
              (S.crypto_auth_hmacsha512_init (f.trace.length + 1) f.state
                (salt.data.take salt_len)).2 (ikm.data.take ikm_len)).2).1 = 0
        · simp [a, b, c, d]
        · simp [a, b, c, d, E_HKDF_FAILURE, E_HKDF_SUCCESS]
      · simp [a, b, c, E_HKDF_FAILURE, E_HKDF_SUCCESS]
    · simp [a, b, E_HKDF_INIT, E_HKDF_SUCCESS]

/-- C15, at a concrete input: the library fails at its call number 2, the
update with the IKM; the call returns `FAILURE` and final is not called. -/
theorem extract_stage_codes_witness :
    (hkdf_hmacsha512_extract (failingAt toyHmac 2) ⟨0, []⟩ 0 ⟨2000, [1, 2, 3]⟩ 3 3000 HASH_LEN
      demoFrame).1 = E_HKDF_FAILURE ∧
    (hkdf_hmacsha512_extract (failingAt toyHmac 2) ⟨0, []⟩ 0 ⟨2000, [1, 2, 3]⟩ 3 3000 HASH_LEN
      demoFrame).2.trace = demoFrame.trace ++
        [LibCall.sodium_init, LibCall.hmacsha512_init [], LibCall.hmacsha512_update [1, 2, 3]] :=
  (extract_stage_codes (failingAt toyHmac 2) ⟨0, []⟩ ⟨2000, [1, 2, 3]⟩ 0 3 3000 demoFrame
    (by decide) (by decide) (by decide) (by decide) (by decide) (by decide)).2.2.1
    (by decide) (by decide) (by decide)

/-- C16: Expand is consistent on beginnings of its output.  Under a library
that succeeds and computes `hmac`, for every valid PRK and info and every
`L1 ≤ L2 ≤ 255 * 64`, the call with `output_len = L1` and the call with
`output_len = L2` both return `SUCCESS`, and the `L1` bytes left by the first
are the first `L1` bytes left by the second. -/
theorem expand_shorter_is_beginning (S : Sodium) (R : Bytes → Bytes → Bytes → Prop)
    (hmac : Bytes → Bytes → Bytes) (hs : LibSucceeds S) (hc : LibComputes S R hmac)
    (prk info : Buf) (prk_len info_len output1 output2 L1 L2 : Nat) (f1 f2 : Frame)
    (hprk : prk.ptr ≠ NULL) (hlen : HASH_LEN ≤ prk_len) (hw1 : wraps prk.ptr prk_len = false)
    (hinfo : info.ptr = NULL → info_len = 0) (hw2 : wraps info.ptr info_len = false)
    (ho1 : output1 = NULL → L1 = 0) (ho2 : output2 = NULL → L2 = 0)
    (hL : L1 ≤ L2) (hL2 : L2 ≤ 255 * 64)
    (hw3 : wraps output1 L1 = false) (hw4 : wraps output2 L2 = false) :
    ∃ r1 r2, hkdf_hmacsha512_expand S prk prk_len info info_len output1 L1 f1 = some r1 ∧
      hkdf_hmacsha512_expand S prk prk_len info info_len output2 L2 f2 = some r2 ∧
      r1.1 = E_HKDF_SUCCESS ∧ r2.1 = E_HKDF_SUCCESS ∧
      r1.2.out.take L1 = r2.2.out.take L1 ∧ (r1.2.out.take L1).length = L1 := by
  obtain ⟨r1, e1, s1, o1, -⟩ := expand_ok S R hmac hs hc prk info prk_len info_len output1 L1 f1
    hprk hlen hw1 hinfo hw2 ho1 (by simp only [HASH_LEN]; omega) hw3
  obtain ⟨r2, e2, s2, o2, -⟩ := expand_ok S R hmac hs hc prk info prk_len info_len output2 L2 f2
    hprk hlen hw1 hinfo hw2 ho2 hL2 hw4
  have l1 := rfc5869_okm_length hmac hc.digest_len (prk.data.take prk_len)
    (info.data.take info_len) L1
  have l2 := rfc5869_okm_length hmac hc.digest_len (prk.data.take prk_len)
    (info.data.take info_len) L2
  have hk := rfc5869_okm_take hmac hc.digest_len (prk.data.take prk_len)
    (info.data.take info_len) L1 L2 hL
  refine ⟨r1, r2, e1, e2, s1, s2, ?_, ?_⟩
  · rw [o1, o2, List.take_left' l1, List.take_append_of_le_length (by rw [l2]; exact hL), hk]
  · rw [o1, List.take_left' l1, l1]

/-- C16, at a concrete input: `L1 = 70` and `L2 = 82`, where the second block
is cut to 6 bytes and to 18 bytes. -/
theorem expand_shorter_is_beginning_witness :
    ∃ r1 r2, hkdf_hmacsha512_expand (refSodium toyHmac) ⟨1000, List.replicate 64 1⟩ 64
        ⟨2000, [1, 2, 3]⟩ 3 3000 70 demoFrame = some r1 ∧
      hkdf_hmacsha512_expand (refSodium toyHmac) ⟨1000, List.replicate 64 1⟩ 64
        ⟨2000, [1, 2, 3]⟩ 3 9000 82 wideFrame = some r2 ∧
      r1.1 = E_HKDF_SUCCESS ∧ r2.1 = E_HKDF_SUCCESS ∧
      r1.2.out.take 70 = r2.2.out.take 70 ∧ (r1.2.out.take 70).length = 70 :=
  expand_shorter_is_beginning (refSodium toyHmac) refRep toyHmac (refSodium_succeeds toyHmac)
    (refSodium_computes toyHmac toyHmac_length) ⟨1000, List.replicate 64 1⟩ ⟨2000, [1, 2, 3]⟩
    64 3 3000 9000 70 82 demoFrame wideFrame (by decide) (by decide) (by decide) (by decide)
    (by decide) (by decide) (by decide) (by decide) (by decide) (by decide) (by decide)

/-- C17: Expand writes only inside the caller's `L` output bytes.  For every
valid call with `1 ≤ L ≤ 255 * 64` on an output object of at least `L` bytes,
with a library whose final stores `HASH_LEN` bytes, and whatever the return
codes of the library: the call returns, the output object keeps its length
and every byte at an index `≥ L`.  With `N = ceil(L / 64)`: each block the
loop stores at offset `i * 64`, `i < N - 1`, ends at or before `(N - 1) * 64`,
which is below `L`; the last copy starts at `(N - 1) * 64` (the code's
`(N - 1) * HASH_LEN` does not wrap) and its length `L - (N - 1) * 64` lies in
`1..64`, is `64` when `L mod 64 = 0` and `L mod 64` otherwise, so that the
stores cover exactly `output[0..L)`. -/
theorem expand_writes_inside (S : Sodium)
    (hfin : ∀ n st, (S.crypto_auth_hmacsha512_final n st).2.2.length = HASH_LEN)
    (prk info : Buf) (prk_len info_len output L : Nat) (f : Frame)
    (hprk : prk.ptr ≠ NULL) (hlen : HASH_LEN ≤ prk_len) (hw1 : wraps prk.ptr prk_len = false)
    (hinfo : info.ptr = NULL → info_len = 0) (hw2 : wraps info.ptr info_len = false)
    (hout : output ≠ NULL) (hL1 : 1 ≤ L) (hL : L ≤ 255 * 64) (hw3 : wraps output L = false)
    (hbuf : L ≤ f.out.length) :
    (∃ r, hkdf_hmacsha512_expand S prk prk_len info info_len output L f = some r ∧
      r.2.out.length = f.out.length ∧ r.2.out.drop L = f.out.drop L) ∧
    (∀ i, i + 1 < (L + 63) / 64 → i * 64 + 64 ≤ ((L + 63) / 64 - 1) * 64) ∧
    ((L + 63) / 64 - 1) * 64 < L ∧
    mulSz (subSz ((L + 63) / 64) 1) HASH_LEN = ((L + 63) / 64 - 1) * 64 ∧
    1 ≤ L - ((L + 63) / 64 - 1) * 64 ∧ L - ((L + 63) / 64 - 1) * 64 ≤ 64 ∧
    L - ((L + 63) / 64 - 1) * 64 = (if 0 = L % HASH_LEN then HASH_LEN else L % HASH_LEN) ∧
    ((L + 63) / 64 - 1) * 64 + (L - ((L + 63) / 64 - 1) * 64) = L := by
  have hb := expand_body_valid S prk info prk_len info_len output L f hprk hlen hw1 hinfo hw2
    (fun h => absurd h hout) hL hw3
  obtain ⟨r, hr, a, b⟩ := expand_compute_frame S hfin prk info prk_len info_len output L f hL hbuf
  refine ⟨⟨_, expand_of_body S prk info prk_len info_len output L f r (hb.trans hr), a, b⟩,
    fun i hi => by omega, by omega, ?_, by omega, by omega, ?_, by omega⟩
  · rw [last_offset _ (by omega) (by omega)]
    rfl
  · simp only [HASH_LEN]
    split_ifs <;> omega

/-- C17, at a concrete input: `L = 82` on the 100-byte output object of
`demoFrame`. -/
theorem expand_writes_inside_witness :
    (∃ r, hkdf_hmacsha512_expand (refSodium toyHmac) ⟨1000, List.replicate 64 1⟩ 64
        ⟨2000, [1, 2, 3]⟩ 3 3000 82 demoFrame = some r ∧
      r.2.out.length = demoFrame.out.length ∧ r.2.out.drop 82 = demoFrame.out.drop 82) ∧
    (∀ i, i + 1 < (82 + 63) / 64 → i * 64 + 64 ≤ ((82 + 63) / 64 - 1) * 64) ∧
    ((82 + 63) / 64 - 1) * 64 < 82 ∧
    mulSz (subSz ((82 + 63) / 64) 1) HASH_LEN = ((82 + 63) / 64 - 1) * 64 ∧
    1 ≤ 82 - ((82 + 63) / 64 - 1) * 64 ∧ 82 - ((82 + 63) / 64 - 1) * 64 ≤ 64 ∧
    82 - ((82 + 63) / 64 - 1) * 64 = (if 0 = 82 % HASH_LEN then HASH_LEN else 82 % HASH_LEN) ∧
    ((82 + 63) / 64 - 1) * 64 + (82 - ((82 + 63) / 64 - 1) * 64) = 82 :=
  expand_writes_inside (refSodium toyHmac) (fun _ _ => toyHmac_length _ _)
    ⟨1000, List.replicate 64 1⟩ ⟨2000, [1, 2, 3]⟩ 64 3 3000 82 demoFrame (by decide) (by decide)
    (by decide) (by decide) (by decide) (by decide) (by decide) (by decide) (by decide)
    (by decide)

/-- C18: the block arithmetic of Expand never wraps or truncates.  For every
`L ≤ 255 * 64`: `L + HASH_LEN - 1` is computed in `size_t` without wrapping;
the code's `N` is `(L + 63) / 64`, the least `N` with `L ≤ 64 * N`, and
`N ≤ 255`; for `N ≥ 1` the loop bound `N - 1` does not wrap, and for `N = 0`
the computation ends right after `sodium_init`, before the loop.  For a valid
call under a library that succeeds and computes `hmac`, the loop is left with
`i = N - 1`, that is after exactly `N - 1` passes, and the calls made are those
of the blocks `1, ..., N`, the counter fed for block `k` being the single byte
`k`: the cast `(unsigned char) (i + 1)` at `i = k - 1` is `k` itself. -/
theorem expand_block_arithmetic (S : Sodium) (R : Bytes → Bytes → Bytes → Prop)
    (hmac : Bytes → Bytes → Bytes) (hs : LibSucceeds S) (hc : LibComputes S R hmac)
    (prk info : Buf) (prk_len info_len output L : Nat) (f : Frame)
    (hprk : prk.ptr ≠ NULL) (hlen : HASH_LEN ≤ prk_len) (hw1 : wraps prk.ptr prk_len = false)
    (hinfo : info.ptr = NULL → info_len = 0) (hw2 : wraps info.ptr info_len = false)
    (hout : output = NULL → L = 0) (hL : L ≤ 255 * 64) (hw3 : wraps output L = false) :
    (addSz L HASH_LEN = L + 64 ∧ subSz (addSz L HASH_LEN) 1 = L + 63) ∧
    (subSz (addSz L HASH_LEN) 1 / HASH_LEN = (L + 63) / 64 ∧
      L ≤ 64 * ((L + 63) / 64) ∧ 64 * ((L + 63) / 64) < L + 64) ∧
    (L + 63) / 64 ≤ 255 ∧
    (1 ≤ (L + 63) / 64 → subSz ((L + 63) / 64) 1 = (L + 63) / 64 - 1) ∧
    ((L + 63) / 64 = 0 → expand_compute S prk prk_len info info_len output L f =
      some (E_HKDF_SUCCESS, (call_sodium_init S f).2)) ∧
    (1 ≤ (L + 63) / 64 →
      ∃ f1, expand_loop S prk prk_len info info_len output ((L + 63) / 64) ((L + 63) / 64) 0
        NULL (call_sodium_init S f).2 =
          some (LoopExit.done ((L + 63) / 64 - 1) (T_at output ((L + 63) / 64 - 1)) f1)) ∧
    (∃ r, hkdf_hmacsha512_expand S prk prk_len info info_len output L f = some r ∧
      r.1 = E_HKDF_SUCCESS ∧
      r.2.trace = f.trace ++ [LibCall.sodium_init] ++
        expand_calls hmac (prk.data.take prk_len) (info.data.take info_len) ((L + 63) / 64)) ∧
    (∀ k, 1 ≤ k → k ≤ (L + 63) / 64 → (k - 1 + 1) % 256 = k) := by
  have hN : (L + 63) / 64 ≤ 255 := by omega
  refine ⟨⟨?_, ?_⟩, ⟨?_, by omega, by omega⟩, hN, fun h1 => ?_, fun h0 => ?_, fun h1 => ?_, ?_,
    fun k k1 k2 => ?_⟩
  · simp only [addSz, SIZE_MOD, HASH_LEN]
    omega
  · simp only [subSz, addSz, SIZE_MOD, HASH_LEN]
    omega
  · exact block_count_eq L hL
  · exact subSz_one _ h1 (by simp only [SIZE_MOD]; omega)
  · have hz : L = 0 := by omega
    subst hz
    have hb2 : ¬ (call_sodium_init S f).1 = -1 := hs.boot
    have h00 : subSz (addSz 0 HASH_LEN) 1 / HASH_LEN = 0 := by
      rw [block_count_eq 0 (Nat.zero_le _)]
      simp [HASH_LEN]
    simp only [expand_compute, hb2, if_false, h00, if_true]
  · exact expand_loop_runs S hs prk info prk_len info_len output _ _ h1 hN
  · obtain ⟨r, hr, h0, -, ht⟩ := expand_ok S R hmac hs hc prk info prk_len info_len output L f
      hprk hlen hw1 hinfo hw2 hout hL hw3
    exact ⟨r, hr, h0, ht⟩
  · omega

/-- C18, at a concrete input: `L = 130`, three blocks, whose calls are listed
with the counters `1`, `2`, `3`. -/
theorem expand_block_arithmetic_witness :
    (130 + 63) / 64 = 3 ∧
    (∃ r, hkdf_hmacsha512_expand (refSodium toyHmac) ⟨1000, List.replicate 64 1⟩ 64
        ⟨2000, [1, 2, 3]⟩ 3 3000 130 wideFrame = some r ∧
      r.1 = E_HKDF_SUCCESS ∧
      r.2.trace = wideFrame.trace ++ [LibCall.sodium_init] ++
        expand_calls toyHmac ((List.replicate 64 1).take 64) ([1, 2, 3].take 3)
          ((130 + 63) / 64)) ∧
    (expand_calls toyHmac (List.replicate 64 1) [1, 2, 3] 3).filterMap
        (fun c => match c with
          | LibCall.hmacsha512_update [b] => some b
          | _ => none) = [1, 2, 3] :=
  ⟨by decide,
    (expand_block_arithmetic (refSodium toyHmac) refRep toyHmac (refSodium_succeeds toyHmac)
      (refSodium_computes toyHmac toyHmac_length) ⟨1000, List.replicate 64 1⟩ ⟨2000, [1, 2, 3]⟩
      64 3 3000 130 wideFrame (by decide) (by decide) (by decide) (by decide) (by decide)
      (by decide) (by decide) (by decide)).2.2.2.2.2.2.1,
    by decide⟩

end Hkdf
